import Mathlib

/-!
# Music player: startup preferences, track navigation, keyboard controls

A shallow embedding of `src/components/MusicPlayer.jsx`.

* JavaScript values that the component stores or reads back are `JSVal`; numbers are
  `JSNum`: `NaN`, the two infinities, or a finite value held as a rational. A number read
  from a string is rounded to binary64 (`roundF64`: nearest, ties to even, underflow to
  zero, overflow to infinity), and so is the product the shuffle takes the floor of. The
  literals `0.7` and `0.1` and the sums and differences the keyboard handler forms with
  them are kept as exact decimals.
* `localStorage` is a function from keys to optional strings (`getItem` gives `null` for
  an absent key).
* The browser built-ins the component calls (`parseInt`, `parseFloat`, `JSON.parse`,
  `JSON.stringify`, `String`) are given as executable functions on character lists.
* Each handler of the component is a function on `Player`, the part of the component
  state the handlers read and write, together with the storage.
-/

namespace MusicPlayer

/-! ## JavaScript values -/

/-- A JavaScript number: `NaN`, `±Infinity`, or a finite value kept as an exact rational
(`-0` is not distinguished from `0`; both are falsy and print as `0`). -/
inductive JSNum where
  | nan
  | inf (neg : Bool)
  | fin (q : ℚ)
  deriving DecidableEq

/-- The values `JSON.parse` can return, which are also the values the component keeps in
its `isDark` and `shuffle` state. -/
inductive JSVal where
  | null
  | bool (b : Bool)
  | num (x : JSNum)
  | str (s : String)
  | arr (xs : List JSVal)
  | obj (kvs : List (String × JSVal))

/-- ToBoolean on numbers: `NaN` and zero are falsy. -/
def JSNum.truthy : JSNum → Bool
  | .nan => false
  | .inf _ => true
  | .fin q => decide (q ≠ 0)

/-- ToBoolean: `null`, `false`, `0`, `NaN` and the empty string are falsy. -/
def JSVal.truthy : JSVal → Bool
  | .null => false
  | .bool b => b
  | .num x => x.truthy
  | .str s => decide (s ≠ "")
  | .arr _ => true
  | .obj _ => true

/-- The value `sign * mant * 10 ^ exp` of a scanned decimal literal. -/
def decimalValue (neg : Bool) (mant : Nat) (exp : Int) : ℚ :=
  (if neg then -1 else 1) * (mant : ℚ) * (10 : ℚ) ^ exp

/-! ## Rounding to binary64 -/

/-- Round to the nearest integer, a tie going to the even one. -/
def roundHalfEven (y : ℚ) : Int :=
  let f := Int.floor y
  if y - f < 1 / 2 then f
  else if 1 / 2 < y - f then f + 1
  else if f % 2 = 0 then f else f + 1

/-- The exponent of the binary64 spacing at magnitude `a`: 53 significant bits, and
never finer than `2 ^ (-1074)`, the spacing of the subnormal numbers. -/
def binary64Ulp (a : ℚ) : Int := max (Int.log 2 a - 52) (-1074)

/-- Round to binary64 precision (nearest, ties to even), with no bound on the exponent
from above. -/
def roundBinary64 (q : ℚ) : ℚ :=
  if q = 0 then 0
  else
    let e := binary64Ulp |q|
    let x : ℚ := (roundHalfEven (|q| / 2 ^ e) : ℚ) * 2 ^ e
    if q < 0 then -x else x

/-- The binary64 value of the real number `q`: rounded to nearest, and infinite when the
rounded magnitude reaches `2 ^ 1024`. -/
def roundF64 (q : ℚ) : JSNum :=
  let x := roundBinary64 q
  if (2 : ℚ) ^ (1024 : Nat) ≤ |x| then .inf (decide (x < 0)) else .fin x

/-! ## Scanning digits -/

/-- Value of a decimal digit character. -/
def digitVal (c : Char) : Nat := c.toNat - 48

/-- Value of a run of decimal digits. -/
def digitsToNat (ds : List Char) : Nat :=
  ds.foldl (fun n c => 10 * n + digitVal c) 0

/-- Hexadecimal digit test. -/
def isHexDigit (c : Char) : Bool :=
  c.isDigit || (97 ≤ c.toNat && c.toNat ≤ 102) || (65 ≤ c.toNat && c.toNat ≤ 70)

/-- Value of a hexadecimal digit character. -/
def hexVal (c : Char) : Nat :=
  if c.isDigit then c.toNat - 48
  else if 97 ≤ c.toNat then c.toNat - 87
  else c.toNat - 55

/-- Value of a run of hexadecimal digits. -/
def hexToNat (ds : List Char) : Nat :=
  ds.foldl (fun n c => 16 * n + hexVal c) 0

/-- The characters `parseInt` and `parseFloat` skip at the start of their argument
(ECMAScript WhiteSpace and LineTerminator). -/
def isStrWhiteSpace (c : Char) : Bool :=
  let n := c.toNat
  n == 0x09 || n == 0x0A || n == 0x0B || n == 0x0C || n == 0x0D || n == 0x20 ||
  n == 0xA0 || n == 0x1680 || (0x2000 ≤ n && n ≤ 0x200A) || n == 0x2028 ||
  n == 0x2029 || n == 0x202F || n == 0x205F || n == 0x3000 || n == 0xFEFF

/-- Strip an optional leading sign, reporting whether it was a minus. -/
def takeSign : List Char → Bool × List Char
  | '-' :: cs => (true, cs)
  | '+' :: cs => (false, cs)
  | cs => (false, cs)

/-! ## `parseInt` and `parseFloat` -/

/-- The digits of `parseInt` after whitespace and sign: radix 16 after a `0x`/`0X`
prefix, radix 10 otherwise; `none` (NaN) when there is no digit. -/
def parseIntDigits : List Char → Option Nat
  | '0' :: 'x' :: cs | '0' :: 'X' :: cs =>
    match cs.span isHexDigit with
    | ([], _) => none
    | (ds, _) => some (hexToNat ds)
  | cs =>
    match cs.span Char.isDigit with
    | ([], _) => none
    | (ds, _) => some (digitsToNat ds)

/-- JavaScript `parseInt(s)` with no radix argument: `NaN` when there is no digit,
otherwise the binary64 value of the integer read. -/
def parseInt (s : String) : JSNum :=
  let (neg, cs) := takeSign (s.data.dropWhile isStrWhiteSpace)
  match parseIntDigits cs with
  | none => .nan
  | some n => roundF64 (if neg then -(n : ℚ) else (n : ℚ))

/-- An exponent part `e[+-]digits` at the head of the input, when it is complete. -/
def scanExponent : List Char → Option (Int × List Char)
  | c :: cs =>
    if c = 'e' ∨ c = 'E' then
      match (takeSign cs).2.span Char.isDigit with
      | ([], _) => none
      | (ds, rest) =>
        some (if (takeSign cs).1 then -(digitsToNat ds : Int) else (digitsToNat ds : Int), rest)
    else none
  | [] => none

/-- Mantissa digits, decimal exponent and remaining input of an unsigned decimal literal
at the head of the input, following the StrDecimalLiteral grammar: digits with an
optional fraction, or a fraction starting with the point, then an optional exponent. -/
def scanDecimal (cs : List Char) : Option (Nat × Int × List Char) :=
  let (ip, r1) := cs.span Char.isDigit
  let (fp, r2, hasDigits) : List Char × List Char × Bool :=
    match r1 with
    | '.' :: r =>
      let (fp, r2) := r.span Char.isDigit
      if ip.isEmpty && fp.isEmpty then ([], r1, false) else (fp, r2, true)
    | _ => ([], r1, !ip.isEmpty)
  if hasDigits then
    let mant := digitsToNat (ip ++ fp)
    match scanExponent r2 with
    | some (e, r3) => some (mant, e - fp.length, r3)
    | none => some (mant, -(fp.length : Int), r2)
  else none

/-- Does `p` start the list `cs`? -/
def startsWith (p : List Char) (cs : List Char) : Bool := p.isPrefixOf cs

/-- JavaScript `parseFloat(s)`: the binary64 value of the longest prefix, after leading
whitespace, that is a signed decimal literal or `Infinity`; `NaN` when there is none. -/
def parseFloat (s : String) : JSNum :=
  let (neg, cs) := takeSign (s.data.dropWhile isStrWhiteSpace)
  if startsWith "Infinity".data cs then .inf neg
  else
    match scanDecimal cs with
    | some (mant, e, _) => roundF64 (decimalValue neg mant e)
    | none => .nan

/-! ## `String(number)` -/

/-- The digits of Number::toString for the positive binary64 value `x`, where
`10 ^ (n - 1) ≤ x < 10 ^ n`: the result `(s, e)` stands for `s / 10 ^ e`, with `s` of
the fewest digits `k` (tried from `k` upwards, `fuel` more times) for which
`s * 10 ^ (n - k)` has the binary64 value `x`; of the two candidates around `x` the one
nearer to `x` is taken, the even one on a tie. -/
def shortestDigits : Nat → Nat → ℚ → Int → Nat × Int
  | 0, k, x, n => (⌊x / 10 ^ (n - (k : Int))⌋₊, (k : Int) - n)
  | fuel + 1, k, x, n =>
    let scale : ℚ := 10 ^ (n - (k : Int))
    let lo : Nat := ⌊x / scale⌋₊
    let okLo : Bool := decide (roundBinary64 ((lo : ℚ) * scale) = x)
    let okHi : Bool := decide (roundBinary64 (((lo + 1 : Nat) : ℚ) * scale) = x)
    let dLo : ℚ := x - (lo : ℚ) * scale
    let dHi : ℚ := ((lo + 1 : Nat) : ℚ) * scale - x
    if okLo && okHi then
      if dLo < dHi then (lo, (k : Int) - n)
      else if dHi < dLo then (lo + 1, (k : Int) - n)
      else if lo % 2 = 0 then (lo, (k : Int) - n) else (lo + 1, (k : Int) - n)
    else if okLo then (lo, (k : Int) - n)
    else if okHi then (lo + 1, (k : Int) - n)
    else shortestDigits fuel (k + 1) x n

/-- Drop trailing zeros of `m`, adjusting the number `e` of decimal places. -/
def stripZeros : Nat → Nat → Int → Nat × Int
  | 0, m, e => (m, e)
  | fuel + 1, m, e =>
    if m ≠ 0 ∧ m % 10 = 0 then stripZeros fuel (m / 10) (e - 1) else (m, e)

/-- Number::toString for the positive value `m / 10 ^ e`, `m` without trailing zeros:
plain notation when the decimal point falls within 21 digits to the right or 6 zeros to
the left, exponent notation otherwise. -/
def formatDecimal (m : Nat) (e : Int) : String :=
  let s := (Nat.repr m).data
  let k : Int := s.length
  let n : Int := k - e
  if k ≤ n ∧ n ≤ 21 then String.mk (s ++ List.replicate (n - k).toNat '0')
  else if 0 < n ∧ n ≤ 21 then String.mk (s.take n.toNat ++ '.' :: s.drop n.toNat)
  else if -6 < n ∧ n ≤ 0 then String.mk ('0' :: '.' :: List.replicate (-n).toNat '0' ++ s)
  else
    let ex := (if n - 1 < 0 then "e-" else "e+") ++ Nat.repr (n - 1).natAbs
    match s with
    | [d] => String.mk [d] ++ ex
    | d :: ds => String.mk (d :: '.' :: ds) ++ ex
    | [] => ex

/-- JavaScript `String(n)` for an integer-valued number `n`. -/
def intToString (n : Int) : String :=
  if n = 0 then "0"
  else
    let (m, e) := stripZeros n.natAbs n.natAbs 0
    (if n < 0 then "-" else "") ++ formatDecimal m e

/-- JavaScript `String(x)`: for a finite non-zero number, the shortest decimal that
reads back as its binary64 value (17 digits always do). -/
def numberToString : JSNum → String
  | .nan => "NaN"
  | .inf neg => if neg then "-Infinity" else "Infinity"
  | .fin q =>
    if q = 0 then "0"
    else
      let x := roundBinary64 |q|
      if x = 0 then "0"
      else
        let (s, e0) := shortestDigits 17 1 x (Int.log 10 x + 1)
        let (m, e) := stripZeros s s e0
        (if q < 0 then "-" else "") ++ formatDecimal m e

/-! ## `JSON.parse` and `JSON.stringify` -/

/-- What an evaluation can fail with: the `SyntaxError` that `JSON.parse` throws, the
recursion budget of this model's parser running out (which `jsonParse` budgets against),
the `TypeError` of reading a property of `undefined` or of giving a media element a
number that is not finite, or the `IndexSizeError` of a media volume outside `[0, 1]`. -/
inductive JSError where
  | syntaxError
  | outOfFuel
  | typeError
  | indexSizeError
  deriving DecidableEq

/-- JSON whitespace. -/
def isJsonWs (c : Char) : Bool :=
  c.toNat == 0x20 || c.toNat == 0x09 || c.toNat == 0x0A || c.toNat == 0x0D

/-- Skip JSON whitespace. -/
def skipWs (cs : List Char) : List Char := cs.dropWhile isJsonWs

/-- Strip an optional leading minus sign, reporting whether there was one. -/
def takeMinus : List Char → Bool × List Char
  | '-' :: r => (true, r)
  | cs => (false, cs)

/-- The integer part of a JSON number, `0` or a digit run not starting with `0`, and
the remaining input. -/
def scanJsonInt : List Char → Option (List Char × List Char)
  | '0' :: r => some (['0'], r)
  | c :: r => if c.isDigit then some ((c :: r).span Char.isDigit) else none
  | [] => none

/-- The fraction of a JSON number, a point followed by at least one digit, if there is
one at the head of the input: its digits and the remaining input. -/
def scanFraction : List Char → List Char × List Char
  | '.' :: r =>
    if (r.span Char.isDigit).1.isEmpty then ([], '.' :: r) else r.span Char.isDigit
  | cs => ([], cs)

/-- A JSON number at the head of the input: `-? (0 | [1-9][0-9]*) (.[0-9]+)? exponent?`,
as its binary64 value. -/
def scanJsonNumber (cs : List Char) : Option (JSNum × List Char) :=
  match scanJsonInt (takeMinus cs).2 with
  | none => none
  | some (ip, r1) =>
    let fp := (scanFraction r1).1
    let mant := digitsToNat (ip ++ fp)
    match scanExponent (scanFraction r1).2 with
    | some (e, r3) =>
      some (roundF64 (decimalValue (takeMinus cs).1 mant (e - fp.length)), r3)
    | none =>
      some (roundF64 (decimalValue (takeMinus cs).1 mant (-(fp.length : Int))),
        (scanFraction r1).2)

/-- Four hexadecimal digits of a `\u` escape. -/
def scanHex4 : List Char → Option (Nat × List Char)
  | a :: b :: c :: d :: r =>
    if isHexDigit a && isHexDigit b && isHexDigit c && isHexDigit d
    then some (hexToNat [a, b, c, d], r) else none
  | _ => none

/-- What reading on inside a JSON string meets next: the closing quote, a character
(written plainly or as an escape), or something a string cannot contain; with the
remaining input. -/
inductive StringStep where
  | close (rest : List Char)
  | char (c : Char) (rest : List Char)
  | bad

/-- The escape after a backslash. A surrogate pair of `\u` escapes is one character; an
unpaired surrogate escape, which has no `Char`, is read as U+FFFD. -/
def escapeStep : List Char → StringStep
  | 'u' :: r1 =>
    match scanHex4 r1 with
    | none => .bad
    | some (hi, r2) =>
      if 0xD800 ≤ hi ∧ hi < 0xDC00 then
        match r2 with
        | '\\' :: 'u' :: r3 =>
          match scanHex4 r3 with
          | some (lo, r4) =>
            if 0xDC00 ≤ lo ∧ lo < 0xE000 then
              .char (Char.ofNat (0x10000 + (hi - 0xD800) * 0x400 + (lo - 0xDC00))) r4
            else .char (Char.ofNat 0xFFFD) r2
          | none => .char (Char.ofNat 0xFFFD) r2
        | _ => .char (Char.ofNat 0xFFFD) r2
      else if 0xDC00 ≤ hi ∧ hi < 0xE000 then .char (Char.ofNat 0xFFFD) r2
      else .char (Char.ofNat hi) r2
  | e :: r1 =>
    if e = '"' ∨ e = '\\' ∨ e = '/' then .char e r1
    else if e = 'b' then .char (Char.ofNat 8) r1
    else if e = 'f' then .char (Char.ofNat 12) r1
    else if e = 'n' then .char '\n' r1
    else if e = 'r' then .char '\r' r1
    else if e = 't' then .char '\t' r1
    else .bad
  | [] => .bad

/-- One step inside a JSON string. Control characters must be escaped. -/
def stringStep : List Char → StringStep
  | [] => .bad
  | c :: r =>
    if c = '"' then .close r
    else if c = '\\' then escapeStep r
    else if c.toNat < 0x20 then .bad
    else .char c r

/-- The rest of a JSON string after its opening quote; `acc` holds the characters read so
far, newest first. -/
def scanJsonString : Nat → List Char → List Char → Except JSError (String × List Char)
  | 0, _, _ => .error .outOfFuel
  | fuel + 1, cs, acc =>
    match stringStep cs with
    | .bad => .error .syntaxError
    | .close r => .ok (String.mk acc.reverse, r)
    | .char c r => scanJsonString fuel r (c :: acc)

/-- Is `k` an array index (a canonical decimal numeral below `2 ^ 32 - 1`)? Such keys
come first, in numeric order, among an object's own keys. -/
def arrayIndex? (k : String) : Option Nat :=
  let cs := k.data
  if cs.all Char.isDigit ∧ cs ≠ [] ∧ (cs.head? ≠ some '0' ∨ cs.length = 1) ∧
      digitsToNat cs < 2 ^ 32 - 1
  then some (digitsToNat cs) else none

/-- Does key `a` come after key `b` in own-key order when `a` is the newer key? Only
when both are array indices and `b` is the larger. -/
def keyBefore (a b : String) : Bool :=
  match arrayIndex? a, arrayIndex? b with
  | some i, some j => decide (i < j)
  | some _, none => true
  | none, _ => false

/-- Define property `k` with value `v` on an object whose members are listed in own-key
order: an existing key keeps its place and takes the new value; a new array index goes
in numeric order before the other keys; any other new key goes last. -/
def objInsert (kvs : List (String × JSVal)) (k : String) (v : JSVal) :
    List (String × JSVal) :=
  if kvs.any (fun kv => kv.1 == k) then
    kvs.map (fun kv => if kv.1 == k then (k, v) else kv)
  else
    let (before, after) := kvs.span (fun kv => !keyBefore k kv.1)
    before ++ (k, v) :: after

mutual
/-- A JSON value at the head of the input (after whitespace), with the remaining input. -/
def parseValue : Nat → List Char → Except JSError (JSVal × List Char)
  | 0, _ => .error .outOfFuel
  | fuel + 1, cs =>
    match skipWs cs with
    | 'n' :: 'u' :: 'l' :: 'l' :: r => .ok (.null, r)
    | 't' :: 'r' :: 'u' :: 'e' :: r => .ok (.bool true, r)
    | 'f' :: 'a' :: 'l' :: 's' :: 'e' :: r => .ok (.bool false, r)
    | '"' :: r =>
      match scanJsonString (r.length + 1) r [] with
      | .ok (s, r1) => .ok (.str s, r1)
      | .error e => .error e
    | '[' :: r =>
      match skipWs r with
      | ']' :: r1 => .ok (.arr [], r1)
      | r1 =>
        match parseElements fuel r1 [] with
        | .ok (xs, r2) => .ok (.arr xs, r2)
        | .error e => .error e
    | '\x7b' :: r =>
      match skipWs r with
      | '\x7d' :: r1 => .ok (.obj [], r1)
      | r1 =>
        match parseMembers fuel r1 [] with
        | .ok (kvs, r2) => .ok (.obj kvs, r2)
        | .error e => .error e
    | cs1 =>
      match scanJsonNumber cs1 with
      | some (x, r) => .ok (.num x, r)
      | none => .error .syntaxError
/-- The elements of a non-empty array after its opening bracket; `acc` holds the elements
read so far, newest first. -/
def parseElements : Nat → List Char → List JSVal → Except JSError (List JSVal × List Char)
  | 0, _, _ => .error .outOfFuel
  | fuel + 1, cs, acc =>
    match parseValue fuel cs with
    | .error e => .error e
    | .ok (v, r) =>
      match skipWs r with
      | ',' :: r1 => parseElements fuel r1 (v :: acc)
      | ']' :: r1 => .ok ((v :: acc).reverse, r1)
      | _ => .error .syntaxError
/-- The members of a non-empty object after its opening brace; `acc` holds the object
built so far. -/
def parseMembers : Nat → List Char → List (String × JSVal) →
    Except JSError (List (String × JSVal) × List Char)
  | 0, _, _ => .error .outOfFuel
  | fuel + 1, cs, acc =>
    match skipWs cs with
    | '"' :: r =>
      match scanJsonString (r.length + 1) r [] with
      | .error e => .error e
      | .ok (k, r1) =>
        match skipWs r1 with
        | ':' :: r2 =>
          match parseValue fuel r2 with
          | .error e => .error e
          | .ok (v, r3) =>
            match skipWs r3 with
            | ',' :: r4 => parseMembers fuel r4 (objInsert acc k v)
            | '\x7d' :: r4 => .ok (objInsert acc k v, r4)
            | _ => .error .syntaxError
        | _ => .error .syntaxError
    | _ => .error .syntaxError
end

/-- JavaScript `JSON.parse(s)`: the value of the JSON text `s`, or the `SyntaxError`
thrown when `s` is not a JSON text. -/
def jsonParse (s : String) : Except JSError JSVal :=
  match parseValue (2 * s.data.length + 2) s.data with
  | .error e => .error e
  | .ok (v, r) => if (skipWs r).isEmpty then .ok v else .error .syntaxError

/-- The first character of a JSON text after any whitespace: `n`, `t`, `f`, a quote, a
bracket, a brace, a minus sign or a digit. -/
def jsonStart (c : Char) : Bool :=
  c = 'n' || c = 't' || c = 'f' || c.toNat = 34 || c = '[' || c.toNat = 123 || c = '-' ||
    c.isDigit

/-- Two lower-case hexadecimal digits. -/
def hex2 (n : Nat) : List Char :=
  let h (d : Nat) : Char := if d < 10 then Char.ofNat (48 + d) else Char.ofNat (87 + d)
  [h (n / 16 % 16), h (n % 16)]

/-- QuoteJSONString on one character. -/
def escapeChar (c : Char) : List Char :=
  if c = '"' then ['\\', '"']
  else if c = '\\' then ['\\', '\\']
  else if c.toNat = 8 then ['\\', 'b']
  else if c.toNat = 12 then ['\\', 'f']
  else if c = '\n' then ['\\', 'n']
  else if c = '\r' then ['\\', 'r']
  else if c = '\t' then ['\\', 't']
  else if c.toNat < 0x20 then '\\' :: 'u' :: '0' :: '0' :: hex2 c.toNat
  else [c]

/-- QuoteJSONString. -/
def quoteJson (s : String) : String :=
  String.mk ('"' :: (s.data.flatMap escapeChar ++ ['"']))

mutual
/-- JavaScript `JSON.stringify(v)` (no indentation). -/
def jsonStringify : JSVal → String
  | .null => "null"
  | .bool b => if b then "true" else "false"
  | .num x =>
    match x with
    | .fin _ => numberToString x
    | _ => "null"
  | .str s => quoteJson s
  | .arr xs => "[" ++ stringifyElements xs ++ "]"
  | .obj kvs => "\x7b" ++ stringifyMembers kvs ++ "\x7d"
/-- Comma-separated array elements. -/
def stringifyElements : List JSVal → String
  | [] => ""
  | [x] => jsonStringify x
  | x :: y :: xs => jsonStringify x ++ "," ++ stringifyElements (y :: xs)
/-- Comma-separated object members. -/
def stringifyMembers : List (String × JSVal) → String
  | [] => ""
  | [(k, v)] => quoteJson k ++ ":" ++ jsonStringify v
  | (k, v) :: kv :: kvs =>
    quoteJson k ++ ":" ++ jsonStringify v ++ "," ++ stringifyMembers (kv :: kvs)
end

/-! ## Storage and the track catalog -/

/-- The contents of `localStorage`: the string stored under each key, if any. -/
abbrev Storage := String → Option String

/-- JavaScript `localStorage.getItem(k)`; `none` is `null`. -/
def getItem (ls : Storage) (k : String) : Option String := ls k

/-- JavaScript `localStorage.setItem(k, v)`. -/
def setItem (ls : Storage) (k v : String) : Storage :=
  fun k' => if k' = k then some v else ls k'

/-- ToString on the result of `getItem`, as `parseInt`, `parseFloat` and `JSON.parse`
apply it to their argument: `null` becomes the string `null`. -/
def toStr : Option String → String
  | none => "null"
  | some s => s

/-- One entry of the catalog. -/
structure Track where
  title : String
  artist : String
  src : String
  cover : String
  deriving DecidableEq

/-- The hard-coded catalog (`const tracks`). -/
def tracks : List Track :=
  [ { title := "Sunset Vibes", artist := "Ocean Beats", src := "/music/sunset.wav",
      cover := "/covers/sunset.png" },
    { title := "City Lights", artist := "Midnight Run", src := "/music/city.wav",
      cover := "/covers/city.png" },
    { title := "Dreamscape", artist := "Skyline", src := "/music/dream.wav",
      cover := "/covers/dream.png" } ]

/-- The lookup `tracks[i]` for an integer-valued number `i`: `none` is `undefined`. -/
def trackAt (i : Int) : Option Track :=
  if 0 ≤ i then tracks.get? i.toNat else none

/-! ## Component state and startup -/

/-- The state of a component that has rendered, as far as the handlers below read and
write it, with the storage. Its track index is an integer: a render reads
`tracks[currentTrack].cover` and does not complete otherwise. The `isPlaying` and
`progress` states and the audio element's own play state are left out. -/
structure Player where
  currentTrack : Int
  volume : JSNum
  isDark : JSVal
  repeatMode : String
  shuffle : JSVal
  storage : Storage

/-- Initialiser of `currentTrack`: `parseInt(localStorage.getItem('trackIndex')) || 0`. -/
def initCurrentTrack (ls : Storage) : JSNum :=
  let v := parseInt (toStr (getItem ls "trackIndex"))
  if v.truthy then v else .fin 0

/-- Initialiser of `volume`: `parseFloat(localStorage.getItem('volume')) || 0.7`. -/
def initVolume (ls : Storage) : JSNum :=
  let v := parseFloat (toStr (getItem ls "volume"))
  if v.truthy then v else .fin (7 / 10)

/-- Initialiser of `isDark`:
`JSON.parse(localStorage.getItem('themeDark')) ?? matchMedia(...).matches`, where
`prefersDark` is the media query's answer. -/
def initIsDark (ls : Storage) (prefersDark : Bool) : Except JSError JSVal :=
  match jsonParse (toStr (getItem ls "themeDark")) with
  | .error e => .error e
  | .ok .null => .ok (.bool prefersDark)
  | .ok v => .ok v

/-- Initial value of `repeatMode`: `localStorage.getItem('repeatMode') || 'none'`. -/
def initRepeatMode (ls : Storage) : String :=
  match getItem ls "repeatMode" with
  | some s => if s ≠ "" then s else "none"
  | none => "none"

/-- Initial value of `shuffle`: `JSON.parse(localStorage.getItem('shuffle')) || false`. -/
def initShuffle (ls : Storage) : Except JSError JSVal :=
  match jsonParse (toStr (getItem ls "shuffle")) with
  | .error e => .error e
  | .ok v => .ok (if v.truthy then v else .bool false)

/-- The values the `useState` initialisers give. -/
structure InitialState where
  currentTrack : JSNum
  volume : JSNum
  isDark : JSVal
  repeatMode : String
  shuffle : JSVal

/-- The `useState` initialisers of the first render, in source order; an exception
thrown by one of them aborts the render. -/
def initialState (ls : Storage) (prefersDark : Bool) : Except JSError InitialState :=
  let currentTrack := initCurrentTrack ls
  let volume := initVolume ls
  match initIsDark ls prefersDark with
  | .error e => .error e
  | .ok isDark =>
    let repeatMode := initRepeatMode ls
    match initShuffle ls with
    | .error e => .error e
    | .ok shuffle =>
      .ok { currentTrack := currentTrack, volume := volume, isDark := isDark,
            repeatMode := repeatMode, shuffle := shuffle }

/-- The first render: the initialisers, then the read of `tracks[currentTrack].cover`,
which throws a `TypeError` unless the index is one of the integers that name an element
of `tracks`. -/
def startup (ls : Storage) (prefersDark : Bool) : Except JSError Player :=
  match initialState ls prefersDark with
  | .error e => .error e
  | .ok s =>
    match s.currentTrack with
    | .fin q =>
      if q.den = 1 ∧ (trackAt q.num).isSome then
        .ok { currentTrack := q.num, volume := s.volume, isDark := s.isDark,
              repeatMode := s.repeatMode, shuffle := s.shuffle, storage := ls }
      else .error .typeError
    | _ => .error .typeError

/-- The render's read of `tracks[currentTrack].cover` (and `.title`, `.artist`, `.src`):
a `TypeError` when `tracks[currentTrack]` is `undefined`. -/
def renderTrack (p : Player) : Except JSError Track :=
  match trackAt p.currentTrack with
  | some t => .ok t
  | none => .error .typeError

/-- What the audio-binding effect assigns to the audio element. -/
structure AudioBinding where
  currentTime : JSNum
  volume : JSNum

/-- The assignments at the head of the audio-binding effect:
`savedTime = parseFloat(localStorage.getItem('trackTime')) || 0`,
`audio.currentTime = savedTime`, `audio.volume = volume`. The media element throws a
`TypeError` for a number that is not finite and an `IndexSizeError` for a volume outside
`[0, 1]`; nothing clamps the values before they are assigned. -/
def bindAudio (p : Player) : Except JSError AudioBinding :=
  let t := parseFloat (toStr (getItem p.storage "trackTime"))
  let savedTime := if t.truthy then t else .fin 0
  match savedTime with
  | .fin _ =>
    match p.volume with
    | .fin q =>
      if 0 ≤ q ∧ q ≤ 1 then .ok { currentTime := savedTime, volume := p.volume }
      else .error .indexSizeError
    | _ => .error .typeError
  | _ => .error .typeError

/-- A finite number within `[0, 1]`. -/
def JSNum.inUnit : JSNum → Prop
  | .fin q => 0 ≤ q ∧ q ≤ 1
  | _ => False

/-- The persistence effect: `setItem` of `String(volume)`, `JSON.stringify(isDark)`,
`repeatMode` and `JSON.stringify(shuffle)`, in that order. -/
def persistPrefs (p : Player) : Player :=
  let ls := setItem p.storage "volume" (numberToString p.volume)
  let ls := setItem ls "themeDark" (jsonStringify p.isDark)
  let ls := setItem ls "repeatMode" p.repeatMode
  let ls := setItem ls "shuffle" (jsonStringify p.shuffle)
  { p with storage := ls }

/-- The volume effect: `localStorage.setItem('volume', String(volume))`. -/
def persistVolume (p : Player) : Player :=
  { p with storage := setItem p.storage "volume" (numberToString p.volume) }

/-- The `play` listener: `localStorage.setItem('trackIndex', String(currentTrack))`. -/
def onPlay (p : Player) : Player :=
  { p with storage := setItem p.storage "trackIndex" (intToString p.currentTrack) }

/-- The storage the player leaves behind for the state `p`: the persistence effect has
run, and so has the `play` listener. -/
def writtenStorage (p : Player) : Storage := (onPlay (persistPrefs p)).storage

/-! ## Track navigation -/

/-- A value `Math.random()` can return: a binary64 number in `[0, 1)`. -/
def isDraw (r : ℚ) : Prop := 0 ≤ r ∧ r < 1 ∧ roundF64 r = .fin r

/-- The handler `nextTrack`; `random` is the value `Math.random()` returns. The product
`Math.random() * tracks.length` is rounded to binary64 before `Math.floor` sees it (a
draw is below 1, so the product is far from overflow). -/
def nextTrack (random : ℚ) (p : Player) : Player :=
  let next : Int :=
    if p.shuffle.truthy then Int.floor (roundBinary64 (random * (tracks.length : ℚ)))
    else Int.tmod (p.currentTrack + 1) (tracks.length : Int)
  let ls := setItem p.storage "trackIndex" (intToString next)
  let ls := setItem ls "trackTime" "0"
  { p with currentTrack := next, storage := ls }

/-- The handler `prevTrack`. -/
def prevTrack (p : Player) : Player :=
  let next : Int :=
    if p.currentTrack = 0 then (tracks.length : Int) - 1 else p.currentTrack - 1
  let ls := setItem p.storage "trackIndex" (intToString next)
  let ls := setItem ls "trackTime" "0"
  { p with currentTrack := next, storage := ls }

/-- The events that change the track: the two handlers and the audio element's `ended`
event, whose listener is `nextTrack`. -/
inductive NavEvent where
  | next (random : ℚ)
  | prev
  | ended (random : ℚ)

/-- The handler an event runs. -/
def NavEvent.apply : NavEvent → Player → Player
  | .next r, p => nextTrack r p
  | .prev, p => prevTrack p
  | .ended r, p => nextTrack r p

/-- The random draw of an event, if it makes one, is a value of `Math.random()`. -/
def NavEvent.validDraw : NavEvent → Prop
  | .next r => isDraw r
  | .prev => True
  | .ended r => isDraw r

/-- Run a sequence of navigation events, oldest first. -/
def runNav (evs : List NavEvent) (p : Player) : Player :=
  evs.foldl (fun p e => e.apply p) p

/-! ## Keyboard -/

/-- JavaScript `a + b` on numbers. -/
def JSNum.add : JSNum → JSNum → JSNum
  | .fin a, .fin b => .fin (a + b)
  | .nan, _ => .nan
  | _, .nan => .nan
  | .inf a, .inf b => if a = b then .inf a else .nan
  | .inf a, .fin _ => .inf a
  | .fin _, .inf b => .inf b

/-- JavaScript `-a` on numbers. -/
def JSNum.neg : JSNum → JSNum
  | .nan => .nan
  | .inf a => .inf (!a)
  | .fin a => .fin (-a)

/-- JavaScript `a - b` on numbers. -/
def JSNum.sub (a b : JSNum) : JSNum := a.add b.neg

/-- JavaScript `Math.min(a, b)`. -/
def mathMin : JSNum → JSNum → JSNum
  | .nan, _ => .nan
  | _, .nan => .nan
  | .inf true, _ => .inf true
  | _, .inf true => .inf true
  | .inf false, x => x
  | x, .inf false => x
  | .fin a, .fin b => .fin (min a b)

/-- JavaScript `Math.max(a, b)`. -/
def mathMax : JSNum → JSNum → JSNum
  | .nan, _ => .nan
  | _, .nan => .nan
  | .inf false, _ => .inf false
  | _, .inf false => .inf false
  | .inf true, x => x
  | x, .inf true => x
  | .fin a, .fin b => .fin (max a b)

/-- JavaScript `s.toLowerCase()`, on the ASCII letters (which is all that the
comparisons with the one-letter strings `r` and `s` depend on). -/
def toLowerCase (s : String) : String := String.mk (s.data.map Char.toLower)

/-- The updater the `r` key passes to `setRepeatMode`. -/
def repeatKeyUpdater (m : String) : String :=
  if m = "none" then "all" else if m = "all" then "one" else "none"

/-- The updater the repeat button's `onClick` passes to `setRepeatMode`. -/
def repeatClickUpdater (m : String) : String :=
  if m = "none" then "all" else if m = "all" then "one" else "none"

/-- The repeat button's `onClick`. -/
def onRepeatClick (p : Player) : Player :=
  { p with repeatMode := repeatClickUpdater p.repeatMode }

/-- A `keydown` event: the fields `handleKey` reads. -/
structure KeyEvent where
  code : String
  key : String

/-- The listener `handleKey`, one `if` after the other; `random` is the value
`Math.random()` returns should `nextTrack` run. The `Space` branch (`togglePlay`) only
touches `isPlaying` and the audio element, which are not part of `Player`. -/
def handleKey (e : KeyEvent) (random : ℚ) (p : Player) : Player :=
  let p := if e.code = "ArrowRight" then nextTrack random p else p
  let p := if e.code = "ArrowLeft" then prevTrack p else p
  let p := if e.code = "ArrowUp"
    then { p with volume := mathMin (.fin 1) (p.volume.add (.fin (1 / 10))) } else p
  let p := if e.code = "ArrowDown"
    then { p with volume := mathMax (.fin 0) (p.volume.sub (.fin (1 / 10))) } else p
  let p := if toLowerCase e.key = "r"
    then { p with repeatMode := repeatKeyUpdater p.repeatMode } else p
  let p := if toLowerCase e.key = "s"
    then { p with shuffle := .bool (!p.shuffle.truthy) } else p
  p

/-- The up-arrow key. -/
def arrowUp : KeyEvent := { code := "ArrowUp", key := "ArrowUp" }

/-- The down-arrow key. -/
def arrowDown : KeyEvent := { code := "ArrowDown", key := "ArrowDown" }

/-- Run a sequence of key presses, oldest first, each with the random draw available
to it. -/
def runKeys (ks : List (KeyEvent × ℚ)) (p : Player) : Player :=
  ks.foldl (fun p k => handleKey k.1 k.2 p) p

/-! ## Mount and theme changes -/

/-- A component after its first commit: its state, whether the document element carries
the `dark` class, how many times the body of the spectrum effect has started (each run
starts with `new AudioContext()`, so this is the number of audio contexts constructed),
and whether an uncaught error has since made React remove the component. -/
structure Mounted where
  player : Player
  darkClass : Bool
  contexts : Nat
  tornDown : Bool

/-- The commit of the first render of the state `p`: the render itself, then the
effects in source order. The persistence effect writes the preferences, the `dark`
class is set, the audio-binding effect assigns `currentTime` and `volume`, the spectrum
effect builds the audio graph, and the volume effect writes the volume again. If the
render or the audio-binding effect throws there is no mounted component and the
spectrum effect has not run. The audio element is rendered unconditionally, so
`audioRef.current` is set when the effects run. -/
def mount (p : Player) : Except JSError Mounted :=
  match renderTrack p with
  | .error e => .error e
  | .ok _ =>
    match bindAudio (persistPrefs p) with
    | .error e => .error e
    | .ok _ =>
      .ok { player := persistVolume (persistPrefs p)
            darkClass := p.isDark.truthy
            contexts := 1
            tornDown := false }

/-- Is the state value the same (`Object.is`) as the boolean `b`? -/
def sameAsBool : JSVal → Bool → Bool
  | .bool a, b => a == b
  | _, _ => false

/-- The theme switch's `onCheckedChange={setIsDark}` with the checkbox's `checked`
value. A removed component has no switch. Setting the state to the value it has does
nothing. Otherwise the component renders again, which evaluates
`JSON.parse(localStorage.getItem('shuffle'))` and `tracks[currentTrack]` once more, and
the effects that list `isDark` among their dependencies run: the persistence effect, the
`dark` class toggle, and the spectrum effect (`[isDark]`), whose body constructs a new
audio context and then asks for a media-element source for the same audio element.
`secondSource` tells whether the browser grants that for an element that already feeds a
source node; if it does not, the effect throws and React removes the component. -/
def setIsDark (secondSource : Bool) (checked : Bool) (m : Mounted) : Mounted :=
  if m.tornDown then m
  else if sameAsBool m.player.isDark checked then m
  else
    match initShuffle m.player.storage, renderTrack m.player with
    | .ok _, .ok _ =>
      { player := persistPrefs { m.player with isDark := .bool checked }
        darkClass := checked
        contexts := m.contexts + 1
        tornDown := !secondSource }
    | _, _ => { m with tornDown := true }

/-- Run a sequence of theme changes, oldest first. -/
def runTheme (secondSource : Bool) (bs : List Bool) (m : Mounted) : Mounted :=
  bs.foldl (fun m b => setIsDark secondSource b m) m

/-- How many of the values `bs`, set one after the other starting from the theme `cur`,
differ from the theme current at that time. -/
def themeFlips : Bool → List Bool → Nat
  | _, [] => 0
  | cur, b :: bs => (if b = cur then 0 else 1) + themeFlips b bs

/-- A mounted component that has not been removed, whose theme and shuffle flags are
the booleans `b` and `sh`, whose stored `shuffle` entry is what the persistence effect
wrote for `sh`, and whose render finds its track. -/
def Mounted.healthy (m : Mounted) (b sh : Bool) : Prop :=
  m.tornDown = false ∧ m.player.isDark = .bool b ∧ m.player.shuffle = .bool sh ∧
    getItem m.player.storage "shuffle" = some (jsonStringify (.bool sh)) ∧
    ∃ t, renderTrack m.player = .ok t

/-! ## Sample states -/

/-- A player on the last track with shuffle off and empty storage. -/
def lastTrackPlayer : Player :=
  { currentTrack := 2, volume := .fin (7 / 10), isDark := .bool false,
    repeatMode := "none", shuffle := .bool false, storage := fun _ => none }

/-- A player on the first track with shuffle on and empty storage. -/
def shufflePlayer : Player :=
  { currentTrack := 0, volume := .fin (7 / 10), isDark := .bool false,
    repeatMode := "none", shuffle := .bool true, storage := fun _ => none }

/-- The binary64 number `0.6666666666666666`, the largest below two thirds. -/
def tieDraw : ℚ := 6004799503160661 / 2 ^ 53

/-- A player whose volume is 0.95, with empty storage. -/
def loudPlayer : Player :=
  { currentTrack := 0, volume := .fin (19 / 20), isDark := .bool false,
    repeatMode := "none", shuffle := .bool false, storage := fun _ => none }

/-- The preference record of the spec's example, but muted: volume `0`. -/
def mutedPlayer : Player :=
  { currentTrack := 2, volume := .fin 0, isDark := .bool true, repeatMode := "one",
    shuffle := .bool false, storage := fun _ => none }

/-- Storage whose theme entry is not JSON and whose repeat mode is not a mode. -/
def malformedStorage : Storage :=
  setItem (setItem (fun _ => none) "themeDark" "abc") "repeatMode" "foo"

/-- Storage with unreadable numbers, an empty repeat mode and JSON `null` and `0`. -/
def unreadableStorage : Storage :=
  setItem (setItem (setItem (setItem (setItem (fun _ => none) "trackIndex" "two")
    "volume" "loud") "themeDark" "null") "repeatMode" "") "shuffle" "0"

/-- Storage holding a track index outside the catalog. -/
def outOfRangeStorage : Storage := setItem (fun _ => none) "trackIndex" "7"

/-- Storage holding a volume above 1. -/
def tooLoudStorage : Storage := setItem (fun _ => none) "volume" "1.5"

/-- The state the player starts in from `tooLoudStorage` when the system prefers the
light theme. -/
def tooLoudPlayer : Player :=
  { currentTrack := 0, volume := .fin (3 / 2), isDark := .bool false, repeatMode := "none",
    shuffle := .bool false, storage := tooLoudStorage }

/-- Storage as the player writes it for index 1 and volume 0.5. -/
def inRangeStorage : Storage :=
  setItem (setItem (fun _ => none) "trackIndex" "1") "volume" "0.5"

/-- The component mounted from `lastTrackPlayer`. -/
def mountedLastTrack : Mounted :=
  { player := persistVolume (persistPrefs lastTrackPlayer), darkClass := false,
    contexts := 1, tornDown := false }

/-! ## Rounding to binary64: lemmas -/

theorem roundHalfEven_sub_le (y : ℚ) : (roundHalfEven y : ℚ) - y ≤ 1 / 2 := by
  have h1 := Int.floor_le y
  have h2 := Int.lt_floor_add_one y
  unfold roundHalfEven
  simp only []
  split_ifs <;> push_cast <;> linarith

theorem sub_roundHalfEven_le (y : ℚ) : y - (roundHalfEven y : ℚ) ≤ 1 / 2 := by
  have h1 := Int.floor_le y
  have h2 := Int.lt_floor_add_one y
  unfold roundHalfEven
  simp only []
  split_ifs <;> push_cast <;> linarith

theorem roundHalfEven_le_of_le (y : ℚ) (n : Int) (h : y ≤ n) : roundHalfEven y ≤ n := by
  have h1 := roundHalfEven_sub_le y
  have : (roundHalfEven y : ℚ) < (n : ℚ) + 1 := by linarith
  have : roundHalfEven y < n + 1 := by exact_mod_cast this
  omega

theorem le_roundHalfEven_of_le (y : ℚ) (n : Int) (h : (n : ℚ) ≤ y) : n ≤ roundHalfEven y := by
  have h1 := sub_roundHalfEven_le y
  have : (n : ℚ) - 1 < (roundHalfEven y : ℚ) := by linarith
  have : n - 1 < roundHalfEven y := by exact_mod_cast this
  omega

theorem roundHalfEven_intCast (n : Int) : roundHalfEven (n : ℚ) = n :=
  le_antisymm (roundHalfEven_le_of_le _ n le_rfl) (le_roundHalfEven_of_le _ n le_rfl)

theorem two_zpow_pos (e : Int) : (0 : ℚ) < 2 ^ e := by positivity

theorem log_two_eq (a : ℚ) (k : Int) (h1 : (2 : ℚ) ^ k ≤ a) (h2 : a < 2 ^ (k + 1)) :
    Int.log 2 a = k := by
  have ha : 0 < a := lt_of_lt_of_le (two_zpow_pos k) h1
  have hle : k ≤ Int.log 2 a := by
    rw [← Int.zpow_le_iff_le_log (by norm_num) ha]; simpa using h1
  have hlt : Int.log 2 a < k + 1 := by
    rw [← Int.lt_zpow_iff_log_lt (by norm_num) ha]; simpa using h2
  omega

theorem log_two_spec (a : ℚ) (ha : 0 < a) :
    (2 : ℚ) ^ Int.log 2 a ≤ a ∧ a < 2 ^ (Int.log 2 a + 1) := by
  have h1 := Int.zpow_log_le_self (b := 2) (by norm_num) ha
  have h2 := Int.lt_zpow_succ_log_self (b := 2) (by norm_num) a
  exact ⟨by simpa using h1, by simpa using h2⟩

theorem roundBinary64_pos (q : ℚ) (hq : 0 < q) :
    roundBinary64 q =
      (roundHalfEven (q / 2 ^ binary64Ulp q) : ℚ) * 2 ^ binary64Ulp q := by
  unfold roundBinary64
  rw [if_neg (ne_of_gt hq), abs_of_pos hq]
  simp only []
  rw [if_neg (not_lt.mpr hq.le)]

theorem roundBinary64_nonneg (q : ℚ) (hq : 0 ≤ q) : 0 ≤ roundBinary64 q := by
  rcases eq_or_lt_of_le hq with h | h
  · rw [← h]; simp [roundBinary64]
  · rw [roundBinary64_pos q h]
    have : (0 : Int) ≤ roundHalfEven (q / 2 ^ binary64Ulp q) :=
      le_roundHalfEven_of_le _ 0 (by simpa using (div_pos h (two_zpow_pos _)).le)
    have h2 : (0 : ℚ) ≤ (roundHalfEven (q / 2 ^ binary64Ulp q) : ℚ) := by exact_mod_cast this
    exact mul_nonneg h2 (two_zpow_pos _).le

/-- A positive number that is a whole multiple of the spacing at its own magnitude is
its own rounding. -/
theorem roundBinary64_of_multiple (q : ℚ) (k j : Int) (h1 : (2 : ℚ) ^ k ≤ q)
    (h2 : q < 2 ^ (k + 1)) (hj : q = (j : ℚ) * 2 ^ (max (k - 52) (-1074))) :
    roundBinary64 q = q := by
  have hq : 0 < q := lt_of_lt_of_le (two_zpow_pos k) h1
  rw [roundBinary64_pos q hq]
  have he : binary64Ulp q = max (k - 52) (-1074) := by
    unfold binary64Ulp; rw [log_two_eq q k h1 h2]
  rw [he]
  have hdiv : q / 2 ^ (max (k - 52) (-1074)) = (j : ℚ) := by
    rw [hj]; field_simp
  rw [hdiv, roundHalfEven_intCast, ← hj]

/-- Natural numbers below `2 ^ 53` are binary64 values. -/
theorem roundBinary64_natCast (n : Nat) (h : n < 2 ^ 53) : roundBinary64 (n : ℚ) = n := by
  rcases Nat.eq_zero_or_pos n with h0 | hpos
  · subst h0; simp [roundBinary64]
  · have hq : (0 : ℚ) < n := by exact_mod_cast hpos
    obtain ⟨hl1, hl2⟩ := log_two_spec (n : ℚ) hq
    set k := Int.log 2 (n : ℚ) with hk
    have hk0 : 0 ≤ k := by
      rw [hk, ← Int.zpow_le_iff_le_log (by norm_num) hq]
      simpa using (show (1 : ℚ) ≤ n by exact_mod_cast hpos)
    have hk52 : k < 53 := by
      rw [hk, ← Int.lt_zpow_iff_log_lt (by norm_num) hq]
      have h53 : ((2 : ℚ) ^ (53 : ℤ)) = ((2 ^ 53 : ℕ) : ℚ) := by norm_num
      simp only [Nat.cast_ofNat]
      rw [h53]
      exact_mod_cast h
    have hmax : max (k - 52) (-1074) = k - 52 := max_eq_left (by omega)
    obtain ⟨t, ht⟩ : ∃ t : Nat, (52 - k) = (t : Int) := ⟨(52 - k).toNat, by omega⟩
    apply roundBinary64_of_multiple (n : ℚ) k ((n : Int) * 2 ^ t) hl1 hl2
    rw [hmax]
    have : k - 52 = -(t : Int) := by omega
    rw [this]
    push_cast
    rw [zpow_neg, zpow_natCast]
    field_simp

theorem binary64Ulp_eq (q : ℚ) (k : Int) (h1 : (2 : ℚ) ^ k ≤ q) (h2 : q < 2 ^ (k + 1)) :
    binary64Ulp q = max (k - 52) (-1074) := by
  unfold binary64Ulp; rw [log_two_eq q k h1 h2]

theorem roundBinary64_le_mul (q : ℚ) (hq : 0 < q) (j : Int)
    (h : q / 2 ^ binary64Ulp q ≤ j) : roundBinary64 q ≤ (j : ℚ) * 2 ^ binary64Ulp q := by
  rw [roundBinary64_pos q hq]
  have : (roundHalfEven (q / 2 ^ binary64Ulp q) : ℚ) ≤ (j : ℚ) := by
    exact_mod_cast roundHalfEven_le_of_le _ j h
  exact mul_le_mul_of_nonneg_right this (two_zpow_pos _).le

theorem roundBinary64_lt_mul (q : ℚ) (hq : 0 < q) (j : Int)
    (h : q / 2 ^ binary64Ulp q + 1 / 2 < j) :
    roundBinary64 q < (j : ℚ) * 2 ^ binary64Ulp q := by
  rw [roundBinary64_pos q hq]
  have h1 := roundHalfEven_sub_le (q / 2 ^ binary64Ulp q)
  have : (roundHalfEven (q / 2 ^ binary64Ulp q) : ℚ) < (j : ℚ) := by linarith
  exact mul_lt_mul_of_pos_right this (two_zpow_pos _)

theorem mul_le_roundBinary64 (q : ℚ) (hq : 0 < q) (j : Int)
    (h : (j : ℚ) ≤ q / 2 ^ binary64Ulp q) : (j : ℚ) * 2 ^ binary64Ulp q ≤ roundBinary64 q := by
  rw [roundBinary64_pos q hq]
  have : (j : ℚ) ≤ (roundHalfEven (q / 2 ^ binary64Ulp q) : ℚ) := by
    exact_mod_cast le_roundHalfEven_of_le _ j h
  exact mul_le_mul_of_nonneg_right this (two_zpow_pos _).le

theorem zpow_sub_eq_natCast (c e : Int) (h : e ≤ c) :
    (2 : ℚ) ^ c / 2 ^ e = (((2 : Int) ^ (c - e).toNat : Int) : ℚ) := by
  have hce : c = e + ((c - e).toNat : Int) := by omega
  rw [div_eq_iff (ne_of_gt (two_zpow_pos e))]
  conv_lhs => rw [hce]
  rw [zpow_add₀ (by norm_num), zpow_natCast]
  push_cast
  ring

theorem roundBinary64_le_zpow (q : ℚ) (hq : 0 < q) (c : Int) (hc : binary64Ulp q ≤ c)
    (h : q ≤ 2 ^ c) : roundBinary64 q ≤ 2 ^ c := by
  have hj := zpow_sub_eq_natCast c (binary64Ulp q) hc
  have h1 := roundBinary64_le_mul q hq ((2 : Int) ^ (c - binary64Ulp q).toNat)
    (by rw [← hj]; exact div_le_div_of_nonneg_right h (two_zpow_pos _).le)
  rw [← hj, div_mul_cancel₀ _ (ne_of_gt (two_zpow_pos _))] at h1
  exact h1

theorem zpow_le_roundBinary64 (q : ℚ) (hq : 0 < q) (c : Int) (hc : binary64Ulp q ≤ c)
    (h : (2 : ℚ) ^ c ≤ q) : (2 : ℚ) ^ c ≤ roundBinary64 q := by
  have hj := zpow_sub_eq_natCast c (binary64Ulp q) hc
  have h1 := mul_le_roundBinary64 q hq ((2 : Int) ^ (c - binary64Ulp q).toNat)
    (by rw [← hj]; exact div_le_div_of_nonneg_right h (two_zpow_pos _).le)
  rw [← hj, div_mul_cancel₀ _ (ne_of_gt (two_zpow_pos _))] at h1
  exact h1

/-- Below one, a number's binary64 spacing is at most `2 ^ (-53)`. -/
theorem binary64Ulp_le_of_lt_one (q : ℚ) (hq : 0 < q) (h : q < 1) : binary64Ulp q ≤ -53 := by
  have hlog : Int.log 2 q < 0 := by
    rw [← Int.lt_zpow_iff_log_lt (by norm_num) hq]; simpa using h
  unfold binary64Ulp
  exact max_le (by omega) (by norm_num)

/-- The rounded product of the shuffle stays below 3. -/
theorem roundBinary64_lt_three (q : ℚ) (h0 : 0 ≤ q) (h : q ≤ 3 - 3 / 2 ^ 53) :
    roundBinary64 q < 3 := by
  rcases eq_or_lt_of_le h0 with hz | hpos
  · rw [← hz]; simp [roundBinary64]
  · by_cases h1 : q < 1
    · have hu := binary64Ulp_le_of_lt_one q hpos h1
      have := roundBinary64_le_zpow q hpos 0 (by omega) (by simpa using h1.le)
      have h' : roundBinary64 q ≤ 1 := by simpa using this
      linarith
    · by_cases h2 : q < 2
      · have hu : binary64Ulp q = -52 := by
          rw [binary64Ulp_eq q 0 (by simpa using not_lt.mp h1) (by simpa using h2)]; rfl
        have := roundBinary64_le_zpow q hpos 1 (by omega) (by simpa using h2.le)
        have h' : roundBinary64 q ≤ 2 := by simpa using this
        linarith
      · have hu : binary64Ulp q = -51 := by
          rw [binary64Ulp_eq q 1 (by simpa using not_lt.mp h2) (by norm_num; linarith)]; rfl
        have := roundBinary64_lt_mul q hpos (3 * 2 ^ 51) (by
          rw [hu]; norm_num; linarith)
        rw [hu] at this
        norm_num at this
        exact this

/-- A binary64 number below 1 is at most `1 - 2 ^ (-53)`. -/
theorem isDraw_le (r : ℚ) (h : isDraw r) : r ≤ 1 - 1 / 2 ^ 53 := by
  obtain ⟨h0, h1, hr⟩ := h
  have hfix : roundBinary64 r = r := by
    unfold roundF64 at hr
    simp only [] at hr
    split at hr
    · exact absurd hr (by simp)
    · exact JSNum.fin.inj hr
  by_cases hhalf : r < 1 / 2
  · norm_num; linarith
  · have hpos : 0 < r := by linarith
    have hu : binary64Ulp r = -53 := by
      rw [binary64Ulp_eq r (-1) (by norm_num; linarith) (by simpa using h1)]; rfl
    rw [roundBinary64_pos r hpos, hu] at hfix
    have hm : (roundHalfEven (r / 2 ^ (-53 : Int)) : ℚ) = r * 2 ^ 53 := by
      have h2 : (2 : ℚ) ^ (-53 : Int) = 1 / 2 ^ 53 := by norm_num
      rw [h2] at hfix ⊢
      linarith
    have hlt : (roundHalfEven (r / 2 ^ (-53 : Int)) : ℚ) < ((2 ^ 53 : Int) : ℚ) := by
      rw [hm]; push_cast; nlinarith
    have hle : roundHalfEven (r / 2 ^ (-53 : Int)) ≤ 2 ^ 53 - 1 := by
      have : roundHalfEven (r / 2 ^ (-53 : Int)) < 2 ^ 53 := by exact_mod_cast hlt
      omega
    have hle' : (roundHalfEven (r / 2 ^ (-53 : Int)) : ℚ) ≤ 2 ^ 53 - 1 := by exact_mod_cast hle
    rw [hm] at hle'
    norm_num
    linarith

/-- From 3 upwards, rounding stays at 3 or above. -/
theorem three_le_roundBinary64 (q : ℚ) (h : 3 ≤ q) : 3 ≤ roundBinary64 q := by
  have hpos : 0 < q := by linarith
  by_cases h4 : q < 4
  · have hu : binary64Ulp q = -51 := by
      rw [binary64Ulp_eq q 1 (by norm_num; linarith) (by norm_num; linarith)]; rfl
    have := mul_le_roundBinary64 q hpos (3 * 2 ^ 51) (by rw [hu]; norm_num; linarith)
    rw [hu] at this
    norm_num at this
    exact this
  · obtain ⟨hl1, hl2⟩ := log_two_spec q hpos
    have hk : 2 ≤ Int.log 2 q := by
      rw [← Int.zpow_le_iff_le_log (by norm_num) hpos]
      norm_num; linarith
    have hu : binary64Ulp q ≤ Int.log 2 q := by
      unfold binary64Ulp; exact max_le (by omega) (by omega)
    have h1 := zpow_le_roundBinary64 q hpos (Int.log 2 q) hu hl1
    have h2 : (2 : ℚ) ^ (2 : Int) ≤ 2 ^ Int.log 2 q := zpow_le_zpow_right₀ (by norm_num) hk
    norm_num at h2
    linarith

theorem roundF64_of_lt (q : ℚ) (h : |roundBinary64 q| < 2 ^ 1024) :
    roundF64 q = .fin (roundBinary64 q) := by
  unfold roundF64
  simp only []
  rw [if_neg (not_le.mpr h)]

theorem roundF64_natCast (n : Nat) (h : n < 2 ^ 53) : roundF64 (n : ℚ) = .fin n := by
  have hr := roundBinary64_natCast n h
  rw [roundF64_of_lt, hr]
  rw [hr, abs_of_nonneg (by positivity)]
  have h1 : (n : ℚ) < ((2 ^ 53 : Nat) : ℚ) := by exact_mod_cast h
  have h2 : (((2 ^ 53 : Nat) : ℚ)) < 2 ^ 1024 := by norm_num
  linarith

/-- A number below `2 ^ 1024` that is a whole multiple of the spacing at its own
magnitude is a binary64 value. -/
theorem roundF64_of_multiple (q : ℚ) (k j e : Int) (h1 : (2 : ℚ) ^ k ≤ q)
    (h2 : q < 2 ^ (k + 1)) (he : max (k - 52) (-1074) = e) (hj : q = (j : ℚ) * 2 ^ e)
    (hbig : q < 2 ^ 1024) : roundF64 q = .fin q := by
  have hr := roundBinary64_of_multiple q k j h1 h2 (by rw [he]; exact hj)
  have hq : 0 < q := lt_of_lt_of_le (two_zpow_pos k) h1
  rw [roundF64_of_lt, hr]
  rw [hr, abs_of_pos hq]; exact hbig

/-! ## Navigation: lemmas -/

theorem tracks_length : tracks.length = 3 := rfl

theorem trackAt_isSome (i : Int) (h0 : 0 ≤ i) (h3 : i < 3) : (trackAt i).isSome = true := by
  interval_cases i <;> rfl

theorem trackAt_none (i : Int) (h : i < 0 ∨ 3 ≤ i) : trackAt i = none := by
  unfold trackAt
  rcases h with h | h
  · rw [if_neg (by omega)]
  · rw [if_pos (by omega)]
    have : 3 ≤ i.toNat := by omega
    simp [tracks, List.get?_eq_none, this]

theorem renderTrack_ok (p : Player) (h0 : 0 ≤ p.currentTrack) (h3 : p.currentTrack < 3) :
    ∃ t, renderTrack p = .ok t := by
  have hsome := trackAt_isSome _ h0 h3
  unfold renderTrack
  cases htr : trackAt p.currentTrack with
  | none => rw [htr] at hsome; exact absurd hsome (by decide)
  | some t => exact ⟨t, rfl⟩

theorem nextTrack_index (r : ℚ) (p : Player) :
    (nextTrack r p).currentTrack =
      if p.shuffle.truthy then Int.floor (roundBinary64 (r * 3))
      else Int.tmod (p.currentTrack + 1) 3 := by
  simp [nextTrack, tracks_length]

theorem prevTrack_index (p : Player) :
    (prevTrack p).currentTrack = if p.currentTrack = 0 then 2 else p.currentTrack - 1 := by
  simp [prevTrack, tracks_length]

theorem floor_draw_range (r : ℚ) (hr : isDraw r) :
    0 ≤ Int.floor (roundBinary64 (r * 3)) ∧ Int.floor (roundBinary64 (r * 3)) < 3 := by
  have hle := isDraw_le r hr
  have h0 : 0 ≤ r * 3 := by have := hr.1; linarith
  constructor
  · exact Int.floor_nonneg.mpr (roundBinary64_nonneg _ h0)
  · rw [Int.floor_lt]
    push_cast
    exact roundBinary64_lt_three _ h0 (by linarith)

theorem tmod_succ_range (i : Int) (h0 : 0 ≤ i) (h3 : i < 3) :
    0 ≤ Int.tmod (i + 1) 3 ∧ Int.tmod (i + 1) 3 < 3 := by
  interval_cases i <;> decide

theorem nextTrack_range (r : ℚ) (p : Player) (hr : isDraw r)
    (h0 : 0 ≤ p.currentTrack) (h3 : p.currentTrack < 3) :
    0 ≤ (nextTrack r p).currentTrack ∧ (nextTrack r p).currentTrack < 3 := by
  rw [nextTrack_index]
  split
  · exact floor_draw_range r hr
  · exact tmod_succ_range _ h0 h3

theorem prevTrack_range (p : Player) (h0 : 0 ≤ p.currentTrack) (h3 : p.currentTrack < 3) :
    0 ≤ (prevTrack p).currentTrack ∧ (prevTrack p).currentTrack < 3 := by
  rw [prevTrack_index]
  split <;> omega

theorem navEvent_range (e : NavEvent) (p : Player) (he : e.validDraw)
    (h0 : 0 ≤ p.currentTrack) (h3 : p.currentTrack < 3) :
    0 ≤ (e.apply p).currentTrack ∧ (e.apply p).currentTrack < 3 := by
  cases e with
  | next r => exact nextTrack_range r p he h0 h3
  | prev => exact prevTrack_range p h0 h3
  | ended r => exact nextTrack_range r p he h0 h3

theorem runNav_range (evs : List NavEvent) (p : Player) (hev : ∀ e ∈ evs, e.validDraw)
    (h0 : 0 ≤ p.currentTrack) (h3 : p.currentTrack < 3) :
    0 ≤ (runNav evs p).currentTrack ∧ (runNav evs p).currentTrack < 3 := by
  induction evs generalizing p with
  | nil => exact ⟨h0, h3⟩
  | cons e es ih =>
    have hstep := navEvent_range e p (hev e (List.mem_cons_self e es)) h0 h3
    exact ih (e.apply p) (fun x hx => hev x (List.mem_cons_of_mem e hx)) hstep.1 hstep.2

theorem isDraw_zero : isDraw 0 := by
  refine ⟨le_rfl, by norm_num, ?_⟩
  rw [roundF64_of_lt] <;> simp [roundBinary64]

theorem isDraw_half : isDraw (1 / 2) := by
  refine ⟨by norm_num, by norm_num, ?_⟩
  exact roundF64_of_multiple (1 / 2) (-1) (2 ^ 52) (-53) (by norm_num) (by norm_num) (by decide)
    (by norm_num) (by norm_num)

theorem isDraw_tieDraw : isDraw tieDraw := by
  unfold tieDraw
  refine ⟨by norm_num, by norm_num, ?_⟩
  exact roundF64_of_multiple _ (-1) 6004799503160661 (-53) (by norm_num) (by norm_num) (by decide)
    (by norm_num) (by norm_num)

/-- Three times the draw `0.6666666666666666` is halfway between two binary64 numbers and
rounds, to even, up to 2. -/
theorem roundBinary64_tieDraw : roundBinary64 (tieDraw * 3) = 2 := by
  have hq : tieDraw * 3 = 18014398509481983 / 2 ^ 53 := by unfold tieDraw; norm_num
  rw [hq]
  have hpos : (0 : ℚ) < 18014398509481983 / 2 ^ 53 := by norm_num
  have hu : binary64Ulp (18014398509481983 / 2 ^ 53 : ℚ) = -52 := by
    rw [binary64Ulp_eq _ 0 (by norm_num) (by norm_num)]; rfl
  rw [roundBinary64_pos _ hpos, hu]
  have hy : (18014398509481983 / 2 ^ 53 : ℚ) / 2 ^ (-52 : Int) = 18014398509481983 / 2 := by
    norm_num
  rw [hy]
  have hf : Int.floor (18014398509481983 / 2 : ℚ) = 9007199254740991 := by
    rw [Int.floor_eq_iff]; norm_num
  have hr : roundHalfEven (18014398509481983 / 2 : ℚ) = 9007199254740992 := by
    unfold roundHalfEven
    simp only [hf]
    norm_num
  rw [hr]
  norm_num

/-! ## Navigation: the claims -/

/-- C1. With shuffle disabled and the three-track catalog, for every valid index
(0, 1 or 2) `nextTrack` followed by `prevTrack` leaves the current track index where it
was. -/
theorem prevTrack_nextTrack (r : ℚ) (p : Player) (hs : p.shuffle.truthy = false)
    (h0 : 0 ≤ p.currentTrack) (h3 : p.currentTrack < 3) :
    (prevTrack (nextTrack r p)).currentTrack = p.currentTrack := by
  rw [prevTrack_index, nextTrack_index, hs]
  simp only [Bool.false_eq_true, if_false]
  generalize p.currentTrack = i at h0 h3
  interval_cases i <;> decide

theorem prevTrack_nextTrack_witness :
    (prevTrack (nextTrack 0 lastTrackPlayer)).currentTrack = 2 :=
  prevTrack_nextTrack 0 lastTrackPlayer rfl (by decide) (by decide)

/-- C8. After `nextTrack` and after `prevTrack`, whatever the prior index, shuffle flag,
random draw and storage, the stored `trackTime` is the string `0`, the stored
`trackIndex` is the string of the new current track index, and every other storage key
holds what it held before. -/
theorem navigation_storage_frame (r : ℚ) (p : Player) :
    (getItem (nextTrack r p).storage "trackTime" = some "0" ∧
      getItem (nextTrack r p).storage "trackIndex"
        = some (intToString (nextTrack r p).currentTrack) ∧
      ∀ k, k ≠ "trackTime" → k ≠ "trackIndex" →
        getItem (nextTrack r p).storage k = getItem p.storage k) ∧
    (getItem (prevTrack p).storage "trackTime" = some "0" ∧
      getItem (prevTrack p).storage "trackIndex"
        = some (intToString (prevTrack p).currentTrack) ∧
      ∀ k, k ≠ "trackTime" → k ≠ "trackIndex" →
        getItem (prevTrack p).storage k = getItem p.storage k) := by
  refine ⟨⟨?_, ?_, ?_⟩, ?_, ?_, ?_⟩
  · simp [nextTrack, getItem, setItem]
  · simp [nextTrack, getItem, setItem]
  · intro k h1 h2
    simp [nextTrack, getItem, setItem, h1, h2]
  · simp [prevTrack, getItem, setItem]
  · simp [prevTrack, getItem, setItem]
  · intro k h1 h2
    simp [prevTrack, getItem, setItem, h1, h2]

/-- C10 fails as stated: the draw `0.6666666666666666` is a binary64 number in `[0, 1)`,
and with shuffle on `nextTrack` yields index 2 there, while `floor(3 r)` is 1: the code
takes the floor of the product after it has been rounded to binary64. -/
theorem shuffle_index_not_floor_of_exact_product :
    isDraw tieDraw ∧ shufflePlayer.shuffle.truthy = true ∧
    (nextTrack tieDraw shufflePlayer).currentTrack = 2 ∧
    Int.floor (3 * tieDraw) = 1 ∧
    (nextTrack tieDraw shufflePlayer).currentTrack ≠ Int.floor (3 * tieDraw) := by
  have h2 : (nextTrack tieDraw shufflePlayer).currentTrack = 2 := by
    rw [nextTrack_index, roundBinary64_tieDraw]
    have : shufflePlayer.shuffle.truthy = true := rfl
    rw [this, if_pos rfl]
    exact Int.floor_eq_iff.mpr (by norm_num)
  have h1 : Int.floor (3 * tieDraw) = 1 := by
    unfold tieDraw
    rw [Int.floor_eq_iff]; norm_num
  exact ⟨isDraw_tieDraw, rfl, h2, h1, by rw [h2, h1]; decide⟩

/-- C10 as amended. From an index in `[0, 3)`, for every shuffle flag and every draw `r`
(a binary64 number in `[0, 1)`): `nextTrack` yields the floor of the binary64 product
`r * 3` when shuffle is on and `(i + 1) mod 3` otherwise, `prevTrack` yields `2` at
index `0` and `i - 1` otherwise, both within `[0, 3)`; and after every sequence of
`nextTrack`, `prevTrack` and track-end events the index is within `[0, 3)` and the
render's `tracks[currentTrack]` is defined. -/
theorem navigation_keeps_index_valid (evs : List NavEvent) (r : ℚ) (p : Player)
    (hr : isDraw r) (hev : ∀ e ∈ evs, e.validDraw)
    (h0 : 0 ≤ p.currentTrack) (h3 : p.currentTrack < 3) :
    ((nextTrack r p).currentTrack =
        (if p.shuffle.truthy then Int.floor (roundBinary64 (r * 3))
         else (p.currentTrack + 1) % 3) ∧
      0 ≤ (nextTrack r p).currentTrack ∧ (nextTrack r p).currentTrack < 3) ∧
    ((prevTrack p).currentTrack = (if p.currentTrack = 0 then 2 else p.currentTrack - 1) ∧
      0 ≤ (prevTrack p).currentTrack ∧ (prevTrack p).currentTrack < 3) ∧
    (0 ≤ (runNav evs p).currentTrack ∧ (runNav evs p).currentTrack < 3 ∧
      ∃ t, renderTrack (runNav evs p) = .ok t) := by
  refine ⟨⟨?_, nextTrack_range r p hr h0 h3⟩, ⟨prevTrack_index p, prevTrack_range p h0 h3⟩, ?_⟩
  · rw [nextTrack_index]
    split
    · rfl
    · generalize p.currentTrack = i at h0 h3
      interval_cases i <;> decide
  · have hrun := runNav_range evs p hev h0 h3
    exact ⟨hrun.1, hrun.2, renderTrack_ok _ hrun.1 hrun.2⟩

theorem navigation_keeps_index_valid_witness :
    (runNav [.next tieDraw, .prev, .ended (1 / 2), .next 0] shufflePlayer).currentTrack < 3 ∧
    (nextTrack tieDraw shufflePlayer).currentTrack
      = Int.floor (roundBinary64 (tieDraw * 3)) :=
  have h := navigation_keeps_index_valid [.next tieDraw, .prev, .ended (1 / 2), .next 0]
    tieDraw shufflePlayer isDraw_tieDraw
    (by
      intro e he
      simp only [List.mem_cons, List.mem_singleton, List.not_mem_nil, or_false] at he
      rcases he with h | h | h | h <;> subst h
      · exact isDraw_tieDraw
      · trivial
      · exact isDraw_half
      · exact isDraw_zero)
    (by decide) (by decide)
  ⟨h.2.2.2.1, h.1.1⟩

/-! ## Keyboard: repeat mode and volume -/

theorem handleKey_repeatMode (e : KeyEvent) (r : ℚ) (p : Player) :
    (handleKey e r p).repeatMode =
      if toLowerCase e.key = "r" then repeatKeyUpdater p.repeatMode else p.repeatMode := by
  unfold handleKey
  by_cases h1 : e.code = "ArrowRight" <;> by_cases h2 : e.code = "ArrowLeft" <;>
    by_cases h3 : e.code = "ArrowUp" <;> by_cases h4 : e.code = "ArrowDown" <;>
    by_cases h5 : toLowerCase e.key = "r" <;> by_cases h6 : toLowerCase e.key = "s" <;>
    simp [h1, h2, h3, h4, h5, h6, nextTrack, prevTrack]

/-- C7. Repeat-mode cycling maps `none` to `all`, `all` to `one` and `one` to `none`; the
keyboard shortcut (`r` or `R`, whatever the key code) and the on-screen button apply the
same transition; for every current value the result is one of the three modes; and three
cycles from each of the three modes return to it. -/
theorem repeat_mode_cycle (m code : String) (r : ℚ) (p : Player) :
    (repeatKeyUpdater "none" = "all" ∧ repeatKeyUpdater "all" = "one" ∧
      repeatKeyUpdater "one" = "none") ∧
    repeatClickUpdater m = repeatKeyUpdater m ∧
    (repeatKeyUpdater m = "none" ∨ repeatKeyUpdater m = "all" ∨ repeatKeyUpdater m = "one") ∧
    (repeatKeyUpdater (repeatKeyUpdater (repeatKeyUpdater "none")) = "none" ∧
      repeatKeyUpdater (repeatKeyUpdater (repeatKeyUpdater "all")) = "all" ∧
      repeatKeyUpdater (repeatKeyUpdater (repeatKeyUpdater "one")) = "one") ∧
    (handleKey { code := code, key := "r" } r p).repeatMode = repeatKeyUpdater p.repeatMode ∧
    (handleKey { code := code, key := "R" } r p).repeatMode = repeatKeyUpdater p.repeatMode ∧
    (onRepeatClick p).repeatMode = repeatKeyUpdater p.repeatMode := by
  refine ⟨by decide, rfl, ?_, by decide, ?_, ?_, rfl⟩
  · unfold repeatKeyUpdater
    split
    · exact Or.inr (Or.inl rfl)
    · split
      · exact Or.inr (Or.inr rfl)
      · exact Or.inl rfl
  · rw [handleKey_repeatMode]; rfl
  · rw [handleKey_repeatMode]; rfl

theorem handleKey_volume (e : KeyEvent) (r : ℚ) (p : Player) :
    (handleKey e r p).volume =
      if e.code = "ArrowDown" then
        mathMax (.fin 0)
          ((if e.code = "ArrowUp" then mathMin (.fin 1) (p.volume.add (.fin (1 / 10)))
            else p.volume).sub (.fin (1 / 10)))
      else if e.code = "ArrowUp" then mathMin (.fin 1) (p.volume.add (.fin (1 / 10)))
      else p.volume := by
  unfold handleKey
  by_cases h1 : e.code = "ArrowRight" <;> by_cases h2 : e.code = "ArrowLeft" <;>
    by_cases h3 : e.code = "ArrowUp" <;> by_cases h4 : e.code = "ArrowDown" <;>
    by_cases h5 : toLowerCase e.key = "r" <;> by_cases h6 : toLowerCase e.key = "s" <;>
    simp [h1, h2, h3, h4, h5, h6, nextTrack, prevTrack]

theorem handleKey_arrowUp_volume (r : ℚ) (p : Player) :
    (handleKey arrowUp r p).volume = mathMin (.fin 1) (p.volume.add (.fin (1 / 10))) := by
  rw [handleKey_volume]; rfl

theorem handleKey_arrowDown_volume (r : ℚ) (p : Player) :
    (handleKey arrowDown r p).volume = mathMax (.fin 0) (p.volume.sub (.fin (1 / 10))) := by
  rw [handleKey_volume]; rfl

theorem arrowUp_fin (r q : ℚ) (p : Player) (hv : p.volume = .fin q) :
    (handleKey arrowUp r p).volume = .fin (min 1 (q + 1 / 10)) := by
  rw [handleKey_arrowUp_volume, hv]; rfl

theorem arrowDown_fin (r q : ℚ) (p : Player) (hv : p.volume = .fin q) :
    (handleKey arrowDown r p).volume = .fin (max 0 (q - 1 / 10)) := by
  rw [handleKey_arrowDown_volume, hv]
  simp [JSNum.sub, JSNum.neg, JSNum.add, mathMax, sub_eq_add_neg]

theorem runKeys_arrows_inUnit (ks : List (KeyEvent × ℚ)) (p : Player)
    (hks : ∀ k ∈ ks, k.1 = arrowUp ∨ k.1 = arrowDown) (hv : p.volume.inUnit) :
    (runKeys ks p).volume.inUnit := by
  induction ks generalizing p with
  | nil => exact hv
  | cons k ks ih =>
    apply ih (handleKey k.1 k.2 p) (fun x hx => hks x (List.mem_cons_of_mem k hx))
    cases hvol : p.volume with
    | nan => rw [hvol] at hv; exact hv.elim
    | inf b => rw [hvol] at hv; exact hv.elim
    | fin q =>
      rw [hvol] at hv
      have hq : 0 ≤ q ∧ q ≤ 1 := hv
      rcases hks k (List.mem_cons_self k ks) with h | h
      · rw [h, arrowUp_fin k.2 q p hvol]
        exact ⟨le_min (by norm_num) (by linarith [hq.1]), min_le_left _ _⟩
      · rw [h, arrowDown_fin k.2 q p hvol]
        exact ⟨le_max_left _ _, max_le (by norm_num) (by linarith [hq.2])⟩

/-- C6. For a volume `v` in `[0, 1]` (an exact rational), ArrowUp sets the volume to
`min(1, v + 0.1)` and ArrowDown to `max(0, v - 0.1)`, and after every finite sequence of
ArrowUp and ArrowDown presses the volume is still a number in `[0, 1]`. -/
theorem keyboard_volume_clamped (ks : List (KeyEvent × ℚ)) (r q : ℚ) (p : Player)
    (hv : p.volume = .fin q) (h0 : 0 ≤ q) (h1 : q ≤ 1)
    (hks : ∀ k ∈ ks, k.1 = arrowUp ∨ k.1 = arrowDown) :
    (handleKey arrowUp r p).volume = .fin (min 1 (q + 1 / 10)) ∧
    (handleKey arrowDown r p).volume = .fin (max 0 (q - 1 / 10)) ∧
    ∃ q', (runKeys ks p).volume = .fin q' ∧ 0 ≤ q' ∧ q' ≤ 1 := by
  refine ⟨arrowUp_fin r q p hv, arrowDown_fin r q p hv, ?_⟩
  have hin : (runKeys ks p).volume.inUnit :=
    runKeys_arrows_inUnit ks p hks (by rw [hv]; exact ⟨h0, h1⟩)
  cases hvol : (runKeys ks p).volume with
  | nan => rw [hvol] at hin; exact hin.elim
  | inf b => rw [hvol] at hin; exact hin.elim
  | fin q' => rw [hvol] at hin; exact ⟨q', rfl, hin.1, hin.2⟩

theorem keyboard_volume_clamped_witness :
    ∃ q', (runKeys [(arrowUp, 0), (arrowUp, 0), (arrowDown, 0)] loudPlayer).volume = .fin q' ∧
      0 ≤ q' ∧ q' ≤ 1 :=
  (keyboard_volume_clamped [(arrowUp, 0), (arrowUp, 0), (arrowDown, 0)] 0 (19 / 20) loudPlayer
    rfl (by norm_num) (by norm_num)
    (by intro k hk; simp at hk; rcases hk with h | h <;> rw [h] <;> simp)).2.2

/-! ## Reading numbers and JSON: lemmas -/

theorem isDigit_bounds (c : Char) (h : c.isDigit = true) : 48 ≤ c.toNat ∧ c.toNat ≤ 57 := by
  unfold Char.isDigit at h
  simp only [Bool.and_eq_true, decide_eq_true_eq] at h
  exact ⟨h.1, h.2⟩

theorem isDigit_not_space (c : Char) (h : c.isDigit = true) : isStrWhiteSpace c = false := by
  obtain ⟨h1, h2⟩ := isDigit_bounds c h
  simp only [isStrWhiteSpace, Bool.or_eq_false_iff, Bool.and_eq_false_iff, beq_eq_false_iff_ne,
    decide_eq_false_iff_not]
  omega

theorem span_all_digit (ds : List Char) (h : ∀ c ∈ ds, c.isDigit = true) :
    ds.span Char.isDigit = (ds, []) := by
  rw [List.span_eq_take_drop, List.takeWhile_eq_self_iff.mpr h, List.dropWhile_eq_nil_iff.mpr h]

theorem span_digits_point (ip fp : List Char) (h : ∀ c ∈ ip, c.isDigit = true) :
    (ip ++ '.' :: fp).span Char.isDigit = (ip, '.' :: fp) := by
  rw [List.span_eq_take_drop, List.takeWhile_append_of_pos h, List.dropWhile_append_of_pos h,
    List.takeWhile_cons_of_neg (by decide), List.dropWhile_cons_of_neg (by decide),
    List.append_nil]

theorem span_no_digit (cs : List Char) (h : ∀ c ∈ cs, c.isDigit = false) :
    cs.span Char.isDigit = ([], cs) := by
  cases cs with
  | nil => rfl
  | cons c cs => simp [List.span, List.span.loop, h c (List.mem_cons_self c cs)]

theorem takeSign_subset (cs : List Char) : ∀ c ∈ (takeSign cs).2, c ∈ cs := by
  intro c hc
  unfold takeSign at hc
  split at hc
  · exact List.mem_cons_of_mem _ hc
  · exact List.mem_cons_of_mem _ hc
  · exact hc

theorem takeSign_digit (c : Char) (cs : List Char) (h : c.isDigit = true) :
    takeSign (c :: cs) = (false, c :: cs) := by
  unfold takeSign
  split
  · rename_i heq
    simp only [List.cons.injEq] at heq
    rw [heq.1] at h
    exact absurd h (by decide)
  · rename_i heq
    simp only [List.cons.injEq] at heq
    rw [heq.1] at h
    exact absurd h (by decide)
  · rfl

theorem parseIntDigits_no_digit (cs : List Char) (h : ∀ c ∈ cs, c.isDigit = false) :
    parseIntDigits cs = none := by
  unfold parseIntDigits
  split
  · exact absurd (h '0' (List.mem_cons_self _ _)) (by decide)
  · exact absurd (h '0' (List.mem_cons_self _ _)) (by decide)
  · rw [span_no_digit _ h]

theorem parseIntDigits_digits (ds : List Char) (hne : ds ≠ [])
    (h : ∀ c ∈ ds, c.isDigit = true) : parseIntDigits ds = some (digitsToNat ds) := by
  unfold parseIntDigits
  split
  · exact absurd (h 'x' (by simp)) (by decide)
  · exact absurd (h 'X' (by simp)) (by decide)
  · rw [span_all_digit _ h]
    cases ds with
    | nil => exact absurd rfl hne
    | cons c cs => rfl

/-- A string without a decimal digit is `NaN` to `parseInt`. -/
theorem parseInt_no_digit (s : String) (h : ∀ c ∈ s.data, c.isDigit = false) :
    parseInt s = .nan := by
  have hsub : ∀ c ∈ (takeSign (s.data.dropWhile isStrWhiteSpace)).2, c.isDigit = false :=
    fun c hc => h c ((List.dropWhile_suffix _).subset (takeSign_subset _ c hc))
  unfold parseInt
  cases hts : takeSign (s.data.dropWhile isStrWhiteSpace) with
  | mk neg cs =>
    rw [hts] at hsub
    simp only [parseIntDigits_no_digit cs hsub]

/-- A non-empty string of decimal digits is, to `parseInt`, the binary64 value of the
numeral. -/
theorem parseInt_digits (ds : List Char) (hne : ds ≠ []) (h : ∀ c ∈ ds, c.isDigit = true) :
    parseInt (String.mk ds) = roundF64 (digitsToNat ds) := by
  cases ds with
  | nil => exact absurd rfl hne
  | cons c cs =>
    have hc : c.isDigit = true := h c (List.mem_cons_self c cs)
    unfold parseInt
    have hdrop : List.dropWhile isStrWhiteSpace (String.mk (c :: cs)).data = c :: cs :=
      List.dropWhile_cons_of_neg (by rw [isDigit_not_space c hc]; decide)
    rw [hdrop, takeSign_digit c cs hc]
    simp only [parseIntDigits_digits (c :: cs) hne h]
    rfl

theorem scanDecimal_no_digit (cs : List Char) (h : ∀ c ∈ cs, c.isDigit = false) :
    scanDecimal cs = none := by
  unfold scanDecimal
  rw [span_no_digit _ h]
  cases cs with
  | nil => rfl
  | cons c r =>
    have hr : ∀ c ∈ r, c.isDigit = false := fun c hc => h c (List.mem_cons_of_mem _ hc)
    by_cases hc : c = '.'
    · subst hc
      simp only [span_no_digit r hr]
      rfl
    · simp only []
      split
      · rename_i heq
        split at heq
        · rename_i r' heq'
          simp only [List.cons.injEq] at heq'
          exact absurd heq'.1 hc
        · simp at heq
      · rfl

theorem scanDecimal_digits_point (ip fp : List Char) (hne : ip ≠ [])
    (hi : ∀ c ∈ ip, c.isDigit = true) (hf : ∀ c ∈ fp, c.isDigit = true) :
    scanDecimal (ip ++ '.' :: fp) =
      some (digitsToNat (ip ++ fp), -(fp.length : Int), []) := by
  unfold scanDecimal
  rw [span_digits_point ip fp hi]
  simp only [span_all_digit fp hf]
  cases ip with
  | nil => exact absurd rfl hne
  | cons c cs => rfl

/-- A string with neither a decimal digit nor the letter `I` is `NaN` to `parseFloat`. -/
theorem parseFloat_no_digit (s : String) (h : ∀ c ∈ s.data, c.isDigit = false ∧ c ≠ 'I') :
    parseFloat s = .nan := by
  have hsub : ∀ c ∈ (takeSign (s.data.dropWhile isStrWhiteSpace)).2,
      c.isDigit = false ∧ c ≠ 'I' :=
    fun c hc => h c ((List.dropWhile_suffix _).subset (takeSign_subset _ c hc))
  unfold parseFloat
  cases hts : takeSign (s.data.dropWhile isStrWhiteSpace) with
  | mk neg cs =>
    rw [hts] at hsub
    have hinf : startsWith "Infinity".data cs = false := by
      cases cs with
      | nil => rfl
      | cons c r =>
        have hc := (hsub c (List.mem_cons_self c r)).2
        simp [startsWith, List.isPrefixOf, Ne.symm hc]
    simp only [hinf, scanDecimal_no_digit cs (fun c hc => (hsub c hc).1)]
    rfl

/-- A numeral `digits.digits` is, to `parseFloat`, the binary64 value of the decimal. -/
theorem parseFloat_digits_point (ip fp : List Char) (hne : ip ≠ [])
    (hi : ∀ c ∈ ip, c.isDigit = true) (hf : ∀ c ∈ fp, c.isDigit = true) :
    parseFloat (String.mk (ip ++ '.' :: fp)) =
      roundF64 ((digitsToNat (ip ++ fp) : ℚ) / 10 ^ fp.length) := by
  cases ip with
  | nil => exact absurd rfl hne
  | cons c cs =>
    have hc : c.isDigit = true := hi c (List.mem_cons_self c cs)
    unfold parseFloat
    have hdrop : List.dropWhile isStrWhiteSpace (String.mk ((c :: cs) ++ '.' :: fp)).data
        = c :: (cs ++ '.' :: fp) :=
      List.dropWhile_cons_of_neg (by rw [isDigit_not_space c hc]; decide)
    rw [hdrop, takeSign_digit c _ hc]
    have hinf : startsWith "Infinity".data (c :: (cs ++ '.' :: fp)) = false := by
      have hcI : c ≠ 'I' := by
        intro hI; rw [hI] at hc; exact absurd hc (by decide)
      simp [startsWith, List.isPrefixOf, Ne.symm hcI]
    have hscan := scanDecimal_digits_point (c :: cs) fp hne hi hf
    rw [List.cons_append] at hscan
    have hval : decimalValue false (digitsToNat (c :: cs ++ fp)) (-(fp.length : Int))
        = (digitsToNat (c :: cs ++ fp) : ℚ) / 10 ^ fp.length := by
      simp [decimalValue, zpow_neg, div_eq_mul_inv]
    simp only [hinf, hscan]
    rw [hval, if_neg (by decide)]

theorem scanJsonNumber_bad_start (c : Char) (r : List Char) (h1 : c ≠ '-')
    (h2 : c.isDigit = false) : scanJsonNumber (c :: r) = none := by
  have hm : takeMinus (c :: r) = (false, c :: r) := by
    unfold takeMinus
    split
    · rename_i heq
      simp only [List.cons.injEq] at heq
      exact absurd heq.1 h1
    · rfl
  have hi : scanJsonInt (c :: r) = none := by
    unfold scanJsonInt
    split
    · rename_i heq
      simp only [List.cons.injEq] at heq
      rw [heq.1] at h2
      exact absurd h2 (by decide)
    · rename_i c' r' heq
      simp only [List.cons.injEq] at heq
      rw [← heq.1, h2]
      rfl
    · rename_i heq
      simp at heq
  unfold scanJsonNumber
  rw [hm]
  simp only [hi]

/-- A non-empty string whose first character is neither JSON whitespace nor the start of
a JSON value is rejected by `JSON.parse` with a `SyntaxError`. -/
theorem jsonParse_bad_start (s : String) (c : Char) (r : List Char) (hs : s.data = c :: r)
    (hw : isJsonWs c = false) (hc : jsonStart c = false) :
    jsonParse s = .error .syntaxError := by
  simp only [jsonStart, Bool.or_eq_false_iff, decide_eq_false_iff_not] at hc
  obtain ⟨⟨⟨⟨⟨⟨⟨hn, ht⟩, hf⟩, hq⟩, hb⟩, hbr⟩, hm⟩, hd⟩ := hc
  have hskip : skipWs (c :: r) = c :: r := by
    unfold skipWs
    exact List.dropWhile_cons_of_neg (by rw [hw]; decide)
  have hval : ∀ fuel, parseValue (fuel + 1) (c :: r) = .error .syntaxError := by
    intro fuel
    unfold parseValue
    rw [hskip]
    split
    all_goals first
      | (rename_i heq; simp only [List.cons.injEq] at heq
         first
           | exact absurd heq.1 hn
           | exact absurd heq.1 ht
           | exact absurd heq.1 hf
           | exact absurd heq.1 hb
           | (rw [heq.1] at hq; exact absurd rfl hq)
           | (rw [heq.1] at hbr; exact absurd rfl hbr))
      | (rw [scanJsonNumber_bad_start c r hm hd])
  unfold jsonParse
  rw [hs]
  have : 2 * (c :: r).length + 2 = (2 * (c :: r).length + 1) + 1 := rfl
  rw [this, hval]

/-! ## `JSON.parse`: the recursion budget suffices -/

theorem scanHex4_length (cs : List Char) (n : Nat) (r : List Char)
    (h : scanHex4 cs = some (n, r)) : r.length + 4 = cs.length := by
  unfold scanHex4 at h
  split at h
  · split at h
    · simp only [Option.some.injEq, Prod.mk.injEq] at h
      rw [← h.2]; simp
    · exact absurd h (by simp)
  · exact absurd h (by simp)

theorem escapeStep_length (cs : List Char) :
    (∀ r, escapeStep cs ≠ .close r) ∧
    (∀ c r, escapeStep cs = .char c r → r.length < cs.length) := by
  unfold escapeStep
  split
  · rename_i r1
    split
    · exact ⟨fun r h => by simp at h, fun c r h => by simp at h⟩
    · rename_i hi r2 hhex
      have hlen := scanHex4_length r1 hi r2 hhex
      split
      · split
        · rename_i r3
          split
          · rename_i lo r4 hhex2
            have hlen2 := scanHex4_length r3 lo r4 hhex2
            split
            · refine ⟨fun r h => by simp at h, fun c r h => ?_⟩
              simp only [StringStep.char.injEq] at h
              rw [← h.2]; simp only [List.length_cons] at hlen ⊢; omega
            · refine ⟨fun r h => by simp at h, fun c r h => ?_⟩
              simp only [StringStep.char.injEq] at h
              rw [← h.2]; simp only [List.length_cons] at hlen ⊢; omega
          · refine ⟨fun r h => by simp at h, fun c r h => ?_⟩
            simp only [StringStep.char.injEq] at h
            rw [← h.2]; simp only [List.length_cons] at hlen ⊢; omega
        · refine ⟨fun r h => by simp at h, fun c r h => ?_⟩
          simp only [StringStep.char.injEq] at h
          rw [← h.2]; simp only [List.length_cons] at hlen ⊢; omega
      · split
        · refine ⟨fun r h => by simp at h, fun c r h => ?_⟩
          simp only [StringStep.char.injEq] at h
          rw [← h.2]; simp only [List.length_cons] at hlen ⊢; omega
        · refine ⟨fun r h => by simp at h, fun c r h => ?_⟩
          simp only [StringStep.char.injEq] at h
          rw [← h.2]; simp only [List.length_cons] at hlen ⊢; omega
  · refine ⟨fun r h => ?_, fun c r h => ?_⟩
    · split_ifs at h
    · split_ifs at h <;> simp only [StringStep.char.injEq] at h <;> rw [← h.2] <;> simp
  · exact ⟨fun r h => by simp at h, fun c r h => by simp at h⟩

theorem stringStep_length (cs : List Char) :
    (∀ r, stringStep cs = .close r → r.length < cs.length) ∧
    (∀ c r, stringStep cs = .char c r → r.length < cs.length) := by
  unfold stringStep
  split
  · exact ⟨fun r h => by simp at h, fun c r h => by simp at h⟩
  · rename_i c0 r0
    obtain ⟨he1, he2⟩ := escapeStep_length r0
    refine ⟨fun r h => ?_, fun c r h => ?_⟩
    · split_ifs at h
      · simp only [StringStep.close.injEq] at h
        rw [← h]; simp
      · exact absurd h (he1 r)
    · split_ifs at h
      · have := he2 c r h
        simp only [List.length_cons]; omega
      · simp only [StringStep.char.injEq] at h
        rw [← h.2]; simp

theorem scanJsonString_fuel (fuel : Nat) : ∀ (cs acc : List Char), cs.length < fuel →
    (∀ e, scanJsonString fuel cs acc = .error e → e = .syntaxError) ∧
    (∀ s r, scanJsonString fuel cs acc = .ok (s, r) → r.length < cs.length) := by
  induction fuel with
  | zero => intro cs acc h; exact absurd h (by omega)
  | succ fuel ih =>
    intro cs acc hlen
    obtain ⟨hs1, hs2⟩ := stringStep_length cs
    unfold scanJsonString
    split
    · exact ⟨fun e h => by simp only [Except.error.injEq] at h; exact h.symm,
        fun s r h => by simp at h⟩
    · rename_i r hstep
      refine ⟨fun e h => by simp at h, fun s r' h => ?_⟩
      simp only [Except.ok.injEq, Prod.mk.injEq] at h
      rw [← h.2]; exact hs1 r hstep
    · rename_i c r hstep
      have hr := hs2 c r hstep
      obtain ⟨i1, i2⟩ := ih r (c :: acc) (by omega)
      exact ⟨i1, fun s r' h => lt_trans (i2 s r' h) hr⟩

theorem skipWs_length (cs : List Char) : (skipWs cs).length ≤ cs.length :=
  (List.dropWhile_suffix _).length_le

theorem skipWs_cons_length (cs : List Char) (c : Char) (r : List Char)
    (h : skipWs cs = c :: r) : r.length < cs.length := by
  have := skipWs_length cs
  rw [h] at this
  simp only [List.length_cons] at this
  omega

theorem takeSign_length (cs : List Char) : (takeSign cs).2.length ≤ cs.length := by
  unfold takeSign
  split <;> simp

theorem takeMinus_length (cs : List Char) : (takeMinus cs).2.length ≤ cs.length := by
  unfold takeMinus
  split <;> simp

theorem span_snd_length (p : Char → Bool) (cs : List Char) :
    (cs.span p).2.length ≤ cs.length := by
  rw [List.span_eq_take_drop]
  exact (List.dropWhile_suffix _).length_le

theorem scanExponent_length (cs : List Char) (e : Int) (r : List Char)
    (h : scanExponent cs = some (e, r)) : r.length ≤ cs.length := by
  unfold scanExponent at h
  split at h
  · rename_i c cs'
    split at h
    · have h1 := span_snd_length Char.isDigit (takeSign cs').2
      have h2 := takeSign_length cs'
      split at h
      · exact absurd h (by simp)
      · rename_i ds rest hspan
        simp only [Option.some.injEq, Prod.mk.injEq] at h
        rw [hspan] at h1
        rw [← h.2]
        simp only [List.length_cons] at h1 ⊢
        omega
    · exact absurd h (by simp)
  · exact absurd h (by simp)

theorem scanFraction_length (cs : List Char) : (scanFraction cs).2.length ≤ cs.length := by
  unfold scanFraction
  split
  · rename_i r
    split
    · exact le_rfl
    · have := span_snd_length Char.isDigit r
      simp only [List.length_cons]; omega
  · exact le_rfl

theorem scanJsonInt_length (cs ip r : List Char) (h : scanJsonInt cs = some (ip, r)) :
    r.length < cs.length := by
  unfold scanJsonInt at h
  split at h
  · simp only [Option.some.injEq, Prod.mk.injEq] at h
    rw [← h.2]; simp
  · rename_i c r' _
    split at h
    · rename_i hc
      simp only [Option.some.injEq] at h
      have hsp : ((c :: r').span Char.isDigit).2 = r := by rw [h]
      rw [List.span_eq_take_drop] at hsp
      simp only [List.dropWhile_cons, hc, if_true] at hsp
      have := (List.dropWhile_suffix Char.isDigit (l := r')).length_le
      rw [hsp] at this
      simp only [List.length_cons]; omega
    · exact absurd h (by simp)
  · exact absurd h (by simp)

theorem scanJsonNumber_length (cs : List Char) (x : JSNum) (r : List Char)
    (h : scanJsonNumber cs = some (x, r)) : r.length < cs.length := by
  unfold scanJsonNumber at h
  split at h
  · exact absurd h (by simp)
  · rename_i ip r1 hint
    have h1 := scanJsonInt_length _ ip r1 hint
    have h2 := takeMinus_length cs
    have h3 := scanFraction_length r1
    simp only [] at h
    split at h
    · rename_i e r3 hexp
      have h4 := scanExponent_length _ e r3 hexp
      simp only [Option.some.injEq, Prod.mk.injEq] at h
      rw [← h.2]; omega
    · simp only [Option.some.injEq, Prod.mk.injEq] at h
      rw [← h.2]; omega

theorem parse_fuel (fuel : Nat) :
    (∀ cs, 2 * cs.length + 2 ≤ fuel →
      (∀ e, parseValue fuel cs = .error e → e = .syntaxError) ∧
      (∀ v r, parseValue fuel cs = .ok (v, r) → r.length < cs.length)) ∧
    (∀ cs acc, 2 * cs.length + 3 ≤ fuel →
      (∀ e, parseElements fuel cs acc = .error e → e = .syntaxError) ∧
      (∀ xs r, parseElements fuel cs acc = .ok (xs, r) → r.length < cs.length)) ∧
    (∀ cs acc, 2 * cs.length + 1 ≤ fuel →
      (∀ e, parseMembers fuel cs acc = .error e → e = .syntaxError) ∧
      (∀ kvs r, parseMembers fuel cs acc = .ok (kvs, r) → r.length < cs.length)) := by
  induction fuel with
  | zero =>
    exact ⟨fun cs h => absurd h (by omega), fun cs acc h => absurd h (by omega),
      fun cs acc h => absurd h (by omega)⟩
  | succ fuel ih =>
    obtain ⟨ihV, ihE, ihM⟩ := ih
    refine ⟨?_, ?_, ?_⟩
    · intro cs hf
      have hws := skipWs_length cs
      unfold parseValue
      split
      · rename_i r heq
        rw [heq] at hws
        simp only [List.length_cons] at hws
        refine ⟨fun e h => by simp at h, fun v r' h => ?_⟩
        simp only [Except.ok.injEq, Prod.mk.injEq] at h
        rw [← h.2]; omega
      · rename_i r heq
        rw [heq] at hws
        simp only [List.length_cons] at hws
        refine ⟨fun e h => by simp at h, fun v r' h => ?_⟩
        simp only [Except.ok.injEq, Prod.mk.injEq] at h
        rw [← h.2]; omega
      · rename_i r heq
        rw [heq] at hws
        simp only [List.length_cons] at hws
        refine ⟨fun e h => by simp at h, fun v r' h => ?_⟩
        simp only [Except.ok.injEq, Prod.mk.injEq] at h
        rw [← h.2]; omega
      · rename_i r heq
        rw [heq] at hws
        simp only [List.length_cons] at hws
        obtain ⟨s1, s2⟩ := scanJsonString_fuel (r.length + 1) r [] (by omega)
        split
        · rename_i s r1 hscan
          refine ⟨fun e h => by simp at h, fun v r' h => ?_⟩
          simp only [Except.ok.injEq, Prod.mk.injEq] at h
          have := s2 s r1 hscan
          rw [← h.2]; omega
        · rename_i e hscan
          refine ⟨fun e' h => ?_, fun v r' h => by simp at h⟩
          simp only [Except.error.injEq] at h
          rw [← h]; exact s1 e hscan
      · rename_i r heq
        rw [heq] at hws
        simp only [List.length_cons] at hws
        have hws2 := skipWs_length r
        split
        · rename_i r1 heq2
          rw [heq2] at hws2
          simp only [List.length_cons] at hws2
          refine ⟨fun e h => by simp at h, fun v r' h => ?_⟩
          simp only [Except.ok.injEq, Prod.mk.injEq] at h
          rw [← h.2]; omega
        · obtain ⟨e1, e2⟩ := ihE (skipWs r) [] (by omega)
          split
          · rename_i xs r2 hel
            refine ⟨fun e h => by simp at h, fun v r' h => ?_⟩
            simp only [Except.ok.injEq, Prod.mk.injEq] at h
            have := e2 xs r2 hel
            rw [← h.2]; omega
          · rename_i e hel
            refine ⟨fun e' h => ?_, fun v r' h => by simp at h⟩
            simp only [Except.error.injEq] at h
            rw [← h]; exact e1 e hel
      · rename_i r heq
        rw [heq] at hws
        simp only [List.length_cons] at hws
        have hws2 := skipWs_length r
        split
        · rename_i r1 heq2
          rw [heq2] at hws2
          simp only [List.length_cons] at hws2
          refine ⟨fun e h => by simp at h, fun v r' h => ?_⟩
          simp only [Except.ok.injEq, Prod.mk.injEq] at h
          rw [← h.2]; omega
        · obtain ⟨e1, e2⟩ := ihM (skipWs r) [] (by omega)
          split
          · rename_i kvs r2 hel
            refine ⟨fun e h => by simp at h, fun v r' h => ?_⟩
            simp only [Except.ok.injEq, Prod.mk.injEq] at h
            have := e2 kvs r2 hel
            rw [← h.2]; omega
          · rename_i e hel
            refine ⟨fun e' h => ?_, fun v r' h => by simp at h⟩
            simp only [Except.error.injEq] at h
            rw [← h]; exact e1 e hel
      · split
        · rename_i x r hnum
          have := scanJsonNumber_length _ x r hnum
          refine ⟨fun e h => by simp at h, fun v r' h => ?_⟩
          simp only [Except.ok.injEq, Prod.mk.injEq] at h
          rw [← h.2]; omega
        · exact ⟨fun e h => by simp only [Except.error.injEq] at h; exact h.symm,
            fun v r' h => by simp at h⟩
    · intro cs acc hf
      obtain ⟨v1, v2⟩ := ihV cs (by omega)
      unfold parseElements
      split
      · rename_i e hval
        refine ⟨fun e' h => ?_, fun xs r h => by simp at h⟩
        simp only [Except.error.injEq] at h
        rw [← h]; exact v1 e hval
      · rename_i v r hval
        have hr := v2 v r hval
        have hws := skipWs_length r
        split
        · rename_i r1 heq
          rw [heq] at hws
          simp only [List.length_cons] at hws
          obtain ⟨e1, e2⟩ := ihE r1 (v :: acc) (by omega)
          exact ⟨e1, fun xs r' h => by have := e2 xs r' h; omega⟩
        · rename_i r1 heq
          rw [heq] at hws
          simp only [List.length_cons] at hws
          refine ⟨fun e h => by simp at h, fun xs r' h => ?_⟩
          simp only [Except.ok.injEq, Prod.mk.injEq] at h
          rw [← h.2]; omega
        · exact ⟨fun e h => by simp only [Except.error.injEq] at h; exact h.symm,
            fun xs r' h => by simp at h⟩
    · intro cs acc hf
      have hws := skipWs_length cs
      unfold parseMembers
      split
      · rename_i r heq
        rw [heq] at hws
        simp only [List.length_cons] at hws
        obtain ⟨s1, s2⟩ := scanJsonString_fuel (r.length + 1) r [] (by omega)
        split
        · rename_i e hscan
          refine ⟨fun e' h => ?_, fun kvs r' h => by simp at h⟩
          simp only [Except.error.injEq] at h
          rw [← h]; exact s1 e hscan
        · rename_i k r1 hscan
          have hr1 := s2 k r1 hscan
          have hws1 := skipWs_length r1
          split
          · rename_i r2 heq2
            rw [heq2] at hws1
            simp only [List.length_cons] at hws1
            obtain ⟨v1, v2⟩ := ihV r2 (by omega)
            split
            · rename_i e hval
              refine ⟨fun e' h => ?_, fun kvs r' h => by simp at h⟩
              simp only [Except.error.injEq] at h
              rw [← h]; exact v1 e hval
            · rename_i v r3 hval
              have hr3 := v2 v r3 hval
              have hws3 := skipWs_length r3
              split
              · rename_i r4 heq4
                rw [heq4] at hws3
                simp only [List.length_cons] at hws3
                obtain ⟨m1, m2⟩ := ihM r4 (objInsert acc k v) (by omega)
                exact ⟨m1, fun kvs r' h => by have := m2 kvs r' h; omega⟩
              · rename_i r4 heq4
                rw [heq4] at hws3
                simp only [List.length_cons] at hws3
                refine ⟨fun e h => by simp at h, fun kvs r' h => ?_⟩
                simp only [Except.ok.injEq, Prod.mk.injEq] at h
                rw [← h.2]; omega
              · exact ⟨fun e h => by simp only [Except.error.injEq] at h; exact h.symm,
                  fun kvs r' h => by simp at h⟩
          · exact ⟨fun e h => by simp only [Except.error.injEq] at h; exact h.symm,
              fun kvs r' h => by simp at h⟩
      · exact ⟨fun e h => by simp only [Except.error.injEq] at h; exact h.symm,
          fun kvs r' h => by simp at h⟩

/-- `JSON.parse` as modelled here never stops for lack of recursion budget: the only
error it gives is the `SyntaxError`. -/
theorem jsonParse_error (s : String) (e : JSError) (h : jsonParse s = .error e) :
    e = .syntaxError := by
  obtain ⟨v1, _⟩ := (parse_fuel (2 * s.data.length + 2)).1 s.data le_rfl
  unfold jsonParse at h
  split at h
  · rename_i e' hval
    simp only [Except.error.injEq] at h
    rw [← h]; exact v1 e' hval
  · split at h
    · exact absurd h (by simp)
    · simp only [Except.error.injEq] at h
      exact h.symm

/-! ## Startup: lemmas -/

theorem roundF64_zero : roundF64 0 = .fin 0 := by
  rw [roundF64_of_lt] <;> simp [roundBinary64]

theorem roundF64_cases (q : ℚ) :
    roundF64 q = .fin (roundBinary64 q) ∨ ∃ neg, roundF64 q = .inf neg := by
  unfold roundF64
  simp only []
  split
  · exact Or.inr ⟨_, rfl⟩
  · exact Or.inl rfl

theorem roundF64_fin_inv (q x : ℚ) (h : roundF64 q = .fin x) : x = roundBinary64 q := by
  rcases roundF64_cases q with h1 | ⟨neg, h1⟩
  · rw [h1] at h; exact (JSNum.fin.inj h).symm
  · rw [h1] at h; exact absurd h (by simp)

/-- `x || 0` leaves a rounded number as it is: the only falsy one is zero. -/
theorem roundF64_or_zero (q : ℚ) :
    (if (roundF64 q).truthy then roundF64 q else .fin 0) = roundF64 q := by
  rcases roundF64_cases q with h1 | ⟨neg, h1⟩
  · rw [h1]
    by_cases hz : roundBinary64 q = 0
    · simp [JSNum.truthy, hz]
    · simp [JSNum.truthy, hz]
  · rw [h1]; rfl

theorem initialState_eq_ok (ls : Storage) (sys : Bool) (d s : JSVal)
    (hd : initIsDark ls sys = .ok d) (hs : initShuffle ls = .ok s) :
    initialState ls sys =
      .ok { currentTrack := initCurrentTrack ls, volume := initVolume ls, isDark := d,
            repeatMode := initRepeatMode ls, shuffle := s } := by
  simp only [initialState, hd, hs]

theorem startup_error (ls : Storage) (sys : Bool) (e : JSError)
    (h : initialState ls sys = .error e) : startup ls sys = .error e := by
  simp only [startup, h]

theorem startup_of_index (ls : Storage) (sys : Bool) (st : InitialState) (i : Int)
    (h : initialState ls sys = .ok st) (hi : st.currentTrack = .fin (i : ℚ))
    (h0 : 0 ≤ i) (h3 : i < 3) :
    startup ls sys =
      .ok { currentTrack := i, volume := st.volume, isDark := st.isDark,
            repeatMode := st.repeatMode, shuffle := st.shuffle, storage := ls } := by
  simp only [startup, h, hi, Rat.den_intCast, Rat.num_intCast, trackAt_isSome i h0 h3,
    and_self, if_true]

theorem startup_bad_index (ls : Storage) (sys : Bool) (st : InitialState)
    (h : initialState ls sys = .ok st)
    (hbad : ∀ x : ℚ, st.currentTrack = .fin x → 3 ≤ x) :
    startup ls sys = .error .typeError := by
  simp only [startup, h]
  cases hc : st.currentTrack with
  | nan => rfl
  | inf neg => rfl
  | fin q =>
    have h3 := hbad q hc
    simp only []
    rw [if_neg]
    rintro ⟨hden, hsome⟩
    have hq : (q.num : ℚ) = q := Rat.coe_int_num_of_den_eq_one hden
    have : (3 : ℚ) ≤ (q.num : ℚ) := by rw [hq]; exact h3
    have h3' : (3 : Int) ≤ q.num := by exact_mod_cast this
    rw [trackAt_none q.num (Or.inr h3')] at hsome
    exact absurd hsome (by decide)

theorem persistPrefs_get (p : Player) (k : String) (h1 : k ≠ "volume") (h2 : k ≠ "themeDark")
    (h3 : k ≠ "repeatMode") (h4 : k ≠ "shuffle") :
    getItem (persistPrefs p).storage k = getItem p.storage k := by
  simp [persistPrefs, getItem, setItem, h1, h2, h3, h4]

theorem persistPrefs_shuffle (p : Player) :
    getItem (persistPrefs p).storage "shuffle" = some (jsonStringify p.shuffle) := by
  simp [persistPrefs, getItem, setItem]

/-- With no saved position, the audio-binding effect succeeds exactly when the volume is
a number in `[0, 1]`. -/
theorem bindAudio_of_volume (p : Player) (x : ℚ) (ht : getItem p.storage "trackTime" = none)
    (hv : p.volume = .fin x) :
    (0 ≤ x ∧ x ≤ 1 → bindAudio (persistPrefs p) =
        .ok { currentTime := .fin 0, volume := .fin x }) ∧
    (1 < x → bindAudio (persistPrefs p) = .error .indexSizeError) := by
  have hget : getItem (persistPrefs p).storage "trackTime" = none := by
    rw [persistPrefs_get p "trackTime" (by decide) (by decide) (by decide) (by decide)]
    exact ht
  have hpv : (persistPrefs p).volume = .fin x := hv
  have ht0 : parseFloat (toStr none) = .nan := by decide
  constructor
  · intro hx
    simp only [bindAudio, hget, ht0, hpv, JSNum.truthy, Bool.false_eq_true, if_false, hx,
      and_self, if_true]
  · intro hx
    have : ¬ (0 ≤ x ∧ x ≤ 1) := fun h => absurd h.2 (not_le.mpr hx)
    simp only [bindAudio, hget, ht0, hpv, JSNum.truthy, Bool.false_eq_true, if_false, this]

theorem writtenStorage_get (p : Player) :
    getItem (writtenStorage p) "trackIndex" = some (intToString p.currentTrack) ∧
    getItem (writtenStorage p) "volume" = some (numberToString p.volume) ∧
    getItem (writtenStorage p) "themeDark" = some (jsonStringify p.isDark) ∧
    getItem (writtenStorage p) "repeatMode" = some p.repeatMode ∧
    getItem (writtenStorage p) "shuffle" = some (jsonStringify p.shuffle) := by
  simp [writtenStorage, onPlay, persistPrefs, getItem, setItem]

theorem parseInt_small (i : Int) (h0 : 0 ≤ i) (h3 : i < 3) :
    parseInt (intToString i) = .fin (i : ℚ) := by
  interval_cases i
  · have h : intToString 0 = String.mk ['0'] := by with_unfolding_all rfl
    rw [h, parseInt_digits _ (by simp) (by decide)]
    have : digitsToNat ['0'] = 0 := by decide
    rw [this]; exact_mod_cast roundF64_natCast 0 (by norm_num)
  · have h : intToString 1 = String.mk ['1'] := by with_unfolding_all rfl
    rw [h, parseInt_digits _ (by simp) (by decide)]
    have : digitsToNat ['1'] = 1 := by decide
    rw [this]; exact_mod_cast roundF64_natCast 1 (by norm_num)
  · have h : intToString 2 = String.mk ['2'] := by with_unfolding_all rfl
    rw [h, parseInt_digits _ (by simp) (by decide)]
    have : digitsToNat ['2'] = 2 := by decide
    rw [this]; exact_mod_cast roundF64_natCast 2 (by norm_num)

theorem or_zero_small (i : Int) :
    (if (JSNum.fin (i : ℚ)).truthy then JSNum.fin (i : ℚ) else .fin 0) = .fin (i : ℚ) := by
  by_cases h : (i : ℚ) = 0
  · simp [JSNum.truthy, h]
  · simp [JSNum.truthy, h]

/-- For every record with a valid index, boolean flags and one of the three repeat
modes, startup from the strings the player wrote gives back the index, the theme, the
repeat mode and the shuffle flag; the volume is what `parseFloat(String(volume)) || 0.7`
makes of it. -/
theorem startup_restores_written (idx : Int) (v : JSNum) (dark sh sys : Bool) (mode : String)
    (ls : Storage) (h0 : 0 ≤ idx) (h3 : idx < 3)
    (hm : mode = "none" ∨ mode = "all" ∨ mode = "one") :
    ∃ p, startup (writtenStorage ⟨idx, v, .bool dark, mode, .bool sh, ls⟩) sys = .ok p ∧
      p.currentTrack = idx ∧ p.isDark = .bool dark ∧ p.repeatMode = mode ∧
      p.shuffle = .bool sh ∧
      p.volume = (if (parseFloat (numberToString v)).truthy
                  then parseFloat (numberToString v) else .fin (7 / 10)) := by
  obtain ⟨g1, g2, g3, g4, g5⟩ := writtenStorage_get ⟨idx, v, .bool dark, mode, .bool sh, ls⟩
  generalize writtenStorage ⟨idx, v, .bool dark, mode, .bool sh, ls⟩ = W at g1 g2 g3 g4 g5 ⊢
  have hd : initIsDark W sys = .ok (.bool dark) := by
    unfold initIsDark; rw [g3]; cases dark <;> rfl
  have hs : initShuffle W = .ok (.bool sh) := by
    unfold initShuffle; rw [g5]; cases sh <;> rfl
  have hi : initCurrentTrack W = .fin (idx : ℚ) := by
    unfold initCurrentTrack
    rw [g1]
    show (if (parseInt (intToString idx)).truthy then parseInt (intToString idx) else .fin 0) = _
    rw [parseInt_small idx h0 h3]
    exact or_zero_small idx
  have hr : initRepeatMode W = mode := by
    unfold initRepeatMode; rw [g4]
    rcases hm with h | h | h <;> subst h <;> rfl
  have hv : initVolume W = (if (parseFloat (numberToString v)).truthy
      then parseFloat (numberToString v) else .fin (7 / 10)) := by
    unfold initVolume; rw [g2]; rfl
  refine ⟨_, startup_of_index W sys _ idx (initialState_eq_ok W sys _ _ hd hs) hi h0 h3,
    rfl, rfl, hr, rfl, hv⟩

/-- The binary64 number `0.3`. -/
theorem roundF64_three_tenths : roundF64 (3 / 10) = .fin (5404319552844595 / 2 ^ 54) := by
  have hpos : (0 : ℚ) < 3 / 10 := by norm_num
  have hu : binary64Ulp (3 / 10 : ℚ) = -54 := by
    rw [binary64Ulp_eq _ (-2) (by norm_num) (by norm_num)]; decide
  have hf : Int.floor ((3 / 10 : ℚ) / 2 ^ (-54 : Int)) = 5404319552844595 := by
    rw [Int.floor_eq_iff]; norm_num
  have hr : roundHalfEven ((3 / 10 : ℚ) / 2 ^ (-54 : Int)) = 5404319552844595 := by
    unfold roundHalfEven
    simp only [hf]
    norm_num
  have hb : roundBinary64 (3 / 10) = 5404319552844595 / 2 ^ 54 := by
    rw [roundBinary64_pos _ hpos, hu, hr]; norm_num
  rw [roundF64_of_lt, hb]
  rw [hb]; norm_num [abs_of_pos]

/-- The spec's example: the entries `volume=0.3`, `themeDark=true`, `repeatMode=one`,
`shuffle=false`, `trackIndex=2` start the player with exactly those values, the volume
being the binary64 number `0.3`. -/
theorem startup_spec_example (sys : Bool) :
    startup
      (setItem (setItem (setItem (setItem (setItem (fun _ => none) "volume" "0.3")
        "themeDark" "true") "repeatMode" "one") "shuffle" "false") "trackIndex" "2") sys =
      .ok { currentTrack := 2, volume := .fin (5404319552844595 / 2 ^ 54),
            isDark := .bool true, repeatMode := "one", shuffle := .bool false,
            storage := setItem (setItem (setItem (setItem (setItem (fun _ => none)
              "volume" "0.3") "themeDark" "true") "repeatMode" "one") "shuffle" "false")
              "trackIndex" "2" } := by
  generalize hW : setItem (setItem (setItem (setItem (setItem (fun _ => none)
    "volume" "0.3") "themeDark" "true") "repeatMode" "one") "shuffle" "false")
    "trackIndex" "2" = W
  have hd : initIsDark W sys = .ok (.bool true) := by subst hW; rfl
  have hs : initShuffle W = .ok (.bool false) := by subst hW; rfl
  have hr : initRepeatMode W = "one" := by subst hW; rfl
  have hi : initCurrentTrack W = .fin ((2 : Int) : ℚ) := by
    have hg : toStr (getItem W "trackIndex") = String.mk ['2'] := by subst hW; rfl
    unfold initCurrentTrack
    rw [hg, parseInt_digits _ (by simp) (by decide)]
    have : digitsToNat ['2'] = 2 := by decide
    rw [this, roundF64_natCast 2 (by norm_num)]
    exact or_zero_small 2
  have hv : initVolume W = .fin (5404319552844595 / 2 ^ 54) := by
    have hg : toStr (getItem W "volume") = String.mk (['0'] ++ '.' :: ['3']) := by
      subst hW; rfl
    unfold initVolume
    rw [hg, parseFloat_digits_point _ _ (by simp) (by decide) (by decide)]
    have : ((digitsToNat (['0'] ++ ['3']) : ℚ) / 10 ^ ['3'].length) = 3 / 10 := by
      have : digitsToNat (['0'] ++ ['3']) = 3 := by decide
      rw [this]; norm_num
    rw [this, roundF64_three_tenths]
    simp [JSNum.truthy]
  have := startup_of_index W sys _ 2 (initialState_eq_ok W sys _ _ hd hs) hi (by decide)
    (by decide)
  rw [this, hv, hr]
/-! ## Startup: the claims -/

/-- C2, evaluated where it fails. For the valid record with volume `0` the player writes
the string `0` under `volume`, and startup from what it wrote gives volume `0.7`: the
index, theme, repeat mode and shuffle flag come back, the volume does not. -/
theorem muted_volume_not_restored (sys : Bool) :
    getItem (writtenStorage mutedPlayer) "volume" = some "0" ∧
    startup (writtenStorage mutedPlayer) sys =
      .ok { currentTrack := 2, volume := .fin (7 / 10), isDark := .bool true,
            repeatMode := "one", shuffle := .bool false,
            storage := writtenStorage mutedPlayer } ∧
    JSNum.fin (7 / 10) ≠ mutedPlayer.volume := by
  have hw : getItem (writtenStorage mutedPlayer) "volume" = some "0" := by
    with_unfolding_all rfl
  refine ⟨hw, ?_, by simp [mutedPlayer]⟩
  obtain ⟨p, hp, h1, h2, h3, h4, h5⟩ :=
    startup_restores_written 2 (.fin 0) true false sys "one" (fun _ => none)
      (by decide) (by decide) (Or.inr (Or.inr rfl))
  have hz : numberToString (.fin 0) = "0" := by simp [numberToString]
  have hpf : parseFloat "0" = .fin 0 := by
    have : parseFloat "0" = roundF64 (decimalValue false 0 0) := rfl
    rw [this]
    have : decimalValue false 0 0 = 0 := by simp [decimalValue]
    rw [this, roundF64_zero]
  rw [hz, hpf] at h5
  have h5' : p.volume = .fin (7 / 10) := by rw [h5]; simp [JSNum.truthy]
  have hp' : startup (writtenStorage mutedPlayer) sys = .ok p := hp
  rw [hp']
  have hst : p.storage = writtenStorage mutedPlayer := by
    have := hp'
    unfold startup at this
    split at this
    · exact absurd this (by simp)
    · split at this
      · split at this
        · rw [← Except.ok.inj this]
        · exact absurd this (by simp)
      · exact absurd this (by simp)
  cases p with
  | mk ct vol dk rm shf stg =>
    simp only at h1 h2 h3 h4 h5' hst
    rw [h1, h2, h3, h4, h5', hst]

/-- C3. With nothing stored (every `getItem` gives `null`) the startup state is track
index 0, volume 0.7, repeat mode `none`, shuffle false, and the theme flag is the system
colour-scheme preference, whichever it is. -/
theorem startup_defaults (sys : Bool) :
    startup (fun _ => none) sys =
      .ok { currentTrack := 0, volume := .fin (7 / 10), isDark := .bool sys,
            repeatMode := "none", shuffle := .bool false, storage := fun _ => none } := by
  rfl

/-- C4 fails as stated: with `themeDark=abc` the initialisers end in the `SyntaxError`
that `JSON.parse` throws, and the entry `repeatMode=foo`, not one of the three modes, is
kept instead of the default `none`. -/
theorem malformed_entries_not_defaulted :
    initialState malformedStorage false = .error .syntaxError ∧
    startup malformedStorage false = .error .syntaxError ∧
    initRepeatMode malformedStorage = "foo" ∧ initRepeatMode malformedStorage ≠ "none" := by
  refine ⟨rfl, rfl, rfl, by decide⟩

/-- C4 as amended. The initialisers apply their defaults to what the parse gives, and to
nothing else. For every assignment of strings: (1) if the `themeDark` and `shuffle`
entries are absent or JSON texts, the initialisers complete, and `trackIndex` gives 0
when `parseInt` reads no integer (as for every string without a decimal digit), `volume`
gives 0.7 when `parseFloat` reads no number (as for every string with neither a digit
nor the letter `I`), the theme is the system preference when the JSON value is `null`,
`repeatMode` is `none` when the entry is missing or empty and is the entry itself when
it is any other string, and `shuffle` is false when the JSON value is falsy; (2) if
`themeDark`, or else `shuffle`, is not a JSON text, the error `JSON.parse` throws comes
out of the initialisers, as it does for every entry whose first character is neither
JSON whitespace nor the start of a JSON value; (3) that `SyntaxError` is the only error
the initialisers raise. -/
theorem startup_fallbacks (ls : Storage) (sys : Bool) :
    (∀ d s, jsonParse (toStr (getItem ls "themeDark")) = .ok d →
        jsonParse (toStr (getItem ls "shuffle")) = .ok s →
      ∃ st, initialState ls sys = .ok st ∧
        (parseInt (toStr (getItem ls "trackIndex")) = .nan → st.currentTrack = .fin 0) ∧
        (∀ t, getItem ls "trackIndex" = some t → (∀ c ∈ t.data, c.isDigit = false) →
          st.currentTrack = .fin 0) ∧
        (parseFloat (toStr (getItem ls "volume")) = .nan → st.volume = .fin (7 / 10)) ∧
        (∀ t, getItem ls "volume" = some t → (∀ c ∈ t.data, c.isDigit = false ∧ c ≠ 'I') →
          st.volume = .fin (7 / 10)) ∧
        (d = .null → st.isDark = .bool sys) ∧
        (getItem ls "repeatMode" = none ∨ getItem ls "repeatMode" = some "" →
          st.repeatMode = "none") ∧
        (∀ t, getItem ls "repeatMode" = some t → t ≠ "" → st.repeatMode = t) ∧
        (s.truthy = false → st.shuffle = .bool false)) ∧
    (∀ e, jsonParse (toStr (getItem ls "themeDark")) = .error e →
      initialState ls sys = .error e) ∧
    (∀ d e, jsonParse (toStr (getItem ls "themeDark")) = .ok d →
      jsonParse (toStr (getItem ls "shuffle")) = .error e →
      initialState ls sys = .error e) ∧
    (∀ t c r, getItem ls "themeDark" = some t → t.data = c :: r → isJsonWs c = false →
      jsonStart c = false → initialState ls sys = .error .syntaxError) ∧
    (∀ d t c r, jsonParse (toStr (getItem ls "themeDark")) = .ok d →
      getItem ls "shuffle" = some t → t.data = c :: r → isJsonWs c = false →
      jsonStart c = false → initialState ls sys = .error .syntaxError) ∧
    (∀ e, initialState ls sys = .error e → e = .syntaxError) := by
  have hErr1 : ∀ e, jsonParse (toStr (getItem ls "themeDark")) = .error e →
      initialState ls sys = .error e := by
    intro e he
    simp only [initialState, initIsDark, he]
  have hDark : ∀ d, jsonParse (toStr (getItem ls "themeDark")) = .ok d →
      ∃ d', initIsDark ls sys = .ok d' ∧ (d = .null → d' = .bool sys) := by
    intro d hd
    unfold initIsDark; rw [hd]
    cases d <;> refine ⟨_, rfl, ?_⟩ <;> intro h <;> first | rfl | cases h
  have hErr2 : ∀ d e, jsonParse (toStr (getItem ls "themeDark")) = .ok d →
      jsonParse (toStr (getItem ls "shuffle")) = .error e →
      initialState ls sys = .error e := by
    intro d e hd he
    obtain ⟨d', hD, _⟩ := hDark d hd
    simp only [initialState, hD, initShuffle, he]
  have hOk : ∀ d s, jsonParse (toStr (getItem ls "themeDark")) = .ok d →
      jsonParse (toStr (getItem ls "shuffle")) = .ok s →
      ∃ st, initialState ls sys = .ok st := by
    intro d s hd hs
    obtain ⟨d', hD, _⟩ := hDark d hd
    have hS : initShuffle ls = .ok (if s.truthy then s else .bool false) := by
      unfold initShuffle; rw [hs]
    exact ⟨_, initialState_eq_ok ls sys _ _ hD hS⟩
  have hOnly : ∀ e, initialState ls sys = .error e → e = .syntaxError := by
    intro e he
    cases htd : jsonParse (toStr (getItem ls "themeDark")) with
    | error e1 =>
      rw [hErr1 e1 htd] at he
      simp only [Except.error.injEq] at he
      rw [← he]; exact jsonParse_error _ e1 htd
    | ok d =>
      cases hsh : jsonParse (toStr (getItem ls "shuffle")) with
      | error e2 =>
        rw [hErr2 d e2 htd hsh] at he
        simp only [Except.error.injEq] at he
        rw [← he]; exact jsonParse_error _ e2 hsh
      | ok s =>
        obtain ⟨st, hst⟩ := hOk d s htd hsh
        rw [hst] at he
        exact absurd he (by simp)
  refine ⟨?_, hErr1, hErr2, ?_, ?_, hOnly⟩
  · intro d s hd hs
    obtain ⟨d', hD, hnull⟩ := hDark d hd
    have hS : initShuffle ls = .ok (if s.truthy then s else .bool false) := by
      unfold initShuffle; rw [hs]
    have hInt : parseInt (toStr (getItem ls "trackIndex")) = .nan →
        initCurrentTrack ls = .fin 0 := by
      intro h; unfold initCurrentTrack; rw [h]; rfl
    have hFloat : parseFloat (toStr (getItem ls "volume")) = .nan →
        initVolume ls = .fin (7 / 10) := by
      intro h; unfold initVolume; rw [h]; rfl
    refine ⟨_, initialState_eq_ok ls sys _ _ hD hS, hInt, ?_, hFloat, ?_, hnull, ?_, ?_, ?_⟩
    · intro t ht hno
      apply hInt
      rw [ht]
      exact parseInt_no_digit t hno
    · intro t ht hno
      apply hFloat
      rw [ht]
      exact parseFloat_no_digit t hno
    · intro h
      show initRepeatMode ls = "none"
      unfold initRepeatMode
      rcases h with h | h
      · rw [h]
      · rw [h]; rfl
    · intro t ht hne
      show initRepeatMode ls = t
      unfold initRepeatMode
      rw [ht]
      simp only [ne_eq, hne, not_false_eq_true, if_true]
    · intro h
      show (if s.truthy then s else .bool false) = .bool false
      rw [h]; rfl
  · intro t c r ht hdata hw hc
    apply hErr1
    rw [ht]
    exact jsonParse_bad_start t c r hdata hw hc
  · intro d t c r hd ht hdata hw hc
    apply hErr2 d _ hd
    rw [ht]
    exact jsonParse_bad_start t c r hdata hw hc

theorem startup_fallbacks_witness :
    (∃ st, initialState unreadableStorage true = .ok st ∧ st.currentTrack = .fin 0 ∧
      st.volume = .fin (7 / 10) ∧ st.isDark = .bool true ∧ st.repeatMode = "none" ∧
      st.shuffle = .bool false) ∧
    initialState malformedStorage true = .error .syntaxError := by
  have hzero : jsonParse (toStr (getItem unreadableStorage "shuffle")) = .ok (.num (.fin 0)) := by
    have h1 : jsonParse (toStr (getItem unreadableStorage "shuffle"))
        = .ok (.num (roundF64 (decimalValue false 0 0))) := rfl
    have h2 : decimalValue false 0 0 = 0 := by simp [decimalValue]
    rw [h1, h2, roundF64_zero]
  obtain ⟨st, hst, h1, _, h2, _, h3, h4, _, h5⟩ :=
    (startup_fallbacks unreadableStorage true).1 .null (.num (.fin 0)) (by rfl) hzero
  refine ⟨⟨st, hst, h1 (by rfl), h2 (by rfl), h3 rfl, h4 (Or.inr rfl), h5 ?_⟩, ?_⟩
  · simp [JSVal.truthy, JSNum.truthy]
  · exact (startup_fallbacks malformedStorage true).2.2.2.1 "abc" 'a' ['b', 'c'] rfl rfl
      (by decide) (by decide)

theorem roundF64_three_halves : roundF64 (3 / 2) = .fin (3 / 2) :=
  roundF64_of_multiple (3 / 2) 0 (3 * 2 ^ 51) (-52) (by norm_num) (by norm_num) (by decide)
    (by norm_num) (by norm_num)

theorem roundF64_one_half : roundF64 (1 / 2) = .fin (1 / 2) :=
  roundF64_of_multiple (1 / 2) (-1) (2 ^ 52) (-53) (by norm_num) (by norm_num) (by decide)
    (by norm_num) (by norm_num)

theorem initDark_of_parse (ls : Storage) (sys : Bool) (d : JSVal)
    (hd : jsonParse (toStr (getItem ls "themeDark")) = .ok d) :
    ∃ d', initIsDark ls sys = .ok d' := by
  unfold initIsDark; rw [hd]
  cases d <;> exact ⟨_, rfl⟩

theorem initShuffle_of_parse (ls : Storage) (s : JSVal)
    (hs : jsonParse (toStr (getItem ls "shuffle")) = .ok s) :
    ∃ s', initShuffle ls = .ok s' := by
  unfold initShuffle; rw [hs]; exact ⟨_, rfl⟩

theorem mount_of_volume (p : Player) (x : ℚ) (hr : ∃ t, renderTrack p = .ok t)
    (ht : getItem p.storage "trackTime" = none) (hv : p.volume = .fin x) :
    (0 ≤ x ∧ x ≤ 1 → mount p =
      .ok { player := persistVolume (persistPrefs p), darkClass := p.isDark.truthy,
            contexts := 1, tornDown := false }) ∧
    (1 < x → mount p = .error .indexSizeError) := by
  obtain ⟨t, hrt⟩ := hr
  obtain ⟨h1, h2⟩ := bindAudio_of_volume p x ht hv
  constructor
  · intro hx
    simp only [mount, hrt, h1 hx]
  · intro hx
    simp only [mount, hrt, h2 hx]

/-- C5 fails as stated: from `trackIndex=7` the initialiser gives track index 7 and the
render throws on `tracks[currentTrack]`; from `volume=1.5` the player starts with volume
1.5, and the audio-binding effect's assignment of it to the audio element's volume
throws. -/
theorem stored_values_not_clamped :
    initCurrentTrack outOfRangeStorage = .fin 7 ∧
    startup outOfRangeStorage false = .error .typeError ∧
    startup tooLoudStorage false = .ok tooLoudPlayer ∧
    tooLoudPlayer.volume = .fin (3 / 2) ∧
    mount tooLoudPlayer = .error .indexSizeError := by
  have h7 : initCurrentTrack outOfRangeStorage = .fin 7 := by
    have hg : toStr (getItem outOfRangeStorage "trackIndex") = String.mk ['7'] := rfl
    unfold initCurrentTrack
    rw [hg, parseInt_digits _ (by simp) (by decide)]
    have : digitsToNat ['7'] = 7 := by decide
    rw [this, roundF64_natCast 7 (by norm_num)]
    simp [JSNum.truthy]
  have hbad : startup outOfRangeStorage false = .error .typeError := by
    apply startup_bad_index outOfRangeStorage false _
      (initialState_eq_ok outOfRangeStorage false (.bool false) (.bool false) rfl rfl)
    intro x hx
    have : JSNum.fin 7 = .fin x := by rw [← h7]; exact hx
    rw [← JSNum.fin.inj this]; norm_num
  have hvol : initVolume tooLoudStorage = .fin (3 / 2) := by
    have hg : toStr (getItem tooLoudStorage "volume") = String.mk (['1'] ++ '.' :: ['5']) :=
      rfl
    unfold initVolume
    rw [hg, parseFloat_digits_point _ _ (by simp) (by decide) (by decide)]
    have : ((digitsToNat (['1'] ++ ['5']) : ℚ) / 10 ^ ['5'].length) = 3 / 2 := by
      have : digitsToNat (['1'] ++ ['5']) = 15 := by decide
      rw [this]; norm_num
    rw [this, roundF64_three_halves]
    simp [JSNum.truthy]
  have hok : startup tooLoudStorage false = .ok tooLoudPlayer := by
    have hi : initCurrentTrack tooLoudStorage = .fin ((0 : Int) : ℚ) := by
      have : initCurrentTrack tooLoudStorage = .fin 0 := rfl
      rw [this]; norm_num
    rw [startup_of_index tooLoudStorage false _ 0
      (initialState_eq_ok tooLoudStorage false (.bool false) (.bool false) rfl rfl) hi
      (by decide) (by decide)]
    simp only [hvol]
    rfl
  refine ⟨h7, hbad, hok, rfl, ?_⟩
  exact (mount_of_volume tooLoudPlayer (3 / 2) ⟨_, rfl⟩ rfl rfl).2 (by norm_num)

/-- C5 as amended. Persisted numbers are used unclamped. For every non-empty string of
decimal digits stored under `trackIndex`, of value `n`, the initialiser gives the binary64
value of `n`, which is `n` itself below `2 ^ 53`; the first render completes, at index
`n`, when `n` is below 3 and throws a `TypeError` on `tracks[currentTrack]` otherwise.
For every numeral `digits.digits` stored under `volume` whose binary64 value `x` is not
zero, the startup volume is `x`, and the audio-binding effect assigns it to the audio
element as it is: the component mounts when `x` is at most 1, and the assignment throws
an `IndexSizeError` when `x` is above 1. (The other entries are taken to let the
initialisers complete, and no playback position to be saved.) -/
theorem stored_numbers_used_unclamped (ls : Storage) (sys : Bool) (ds ip fp : List Char)
    (d s : JSVal) (hds : ds ≠ []) (hdd : ∀ c ∈ ds, c.isDigit = true)
    (hip : ip ≠ []) (hid : ∀ c ∈ ip, c.isDigit = true) (hfd : ∀ c ∈ fp, c.isDigit = true)
    (hti : getItem ls "trackIndex" = some (String.mk ds))
    (hvo : getItem ls "volume" = some (String.mk (ip ++ '.' :: fp)))
    (htd : jsonParse (toStr (getItem ls "themeDark")) = .ok d)
    (hsh : jsonParse (toStr (getItem ls "shuffle")) = .ok s)
    (htt : getItem ls "trackTime" = none) :
    initCurrentTrack ls = roundF64 (digitsToNat ds) ∧
    (digitsToNat ds < 2 ^ 53 → initCurrentTrack ls = .fin (digitsToNat ds)) ∧
    (∀ x, roundF64 ((digitsToNat (ip ++ fp) : ℚ) / 10 ^ fp.length) = .fin x → x ≠ 0 →
      initVolume ls = .fin x) ∧
    (3 ≤ digitsToNat ds → startup ls sys = .error .typeError) ∧
    (digitsToNat ds < 3 →
      ∃ p, startup ls sys = .ok p ∧ p.currentTrack = digitsToNat ds ∧
        (∃ t, renderTrack p = .ok t) ∧
        ∀ x, roundF64 ((digitsToNat (ip ++ fp) : ℚ) / 10 ^ fp.length) = .fin x → x ≠ 0 →
          p.volume = .fin x ∧
          (x ≤ 1 → ∃ m, mount p = .ok m ∧ m.player.volume = .fin x ∧ m.contexts = 1) ∧
          (1 < x → mount p = .error .indexSizeError)) := by
  obtain ⟨d', hD⟩ := initDark_of_parse ls sys d htd
  obtain ⟨s', hS⟩ := initShuffle_of_parse ls s hsh
  have hst := initialState_eq_ok ls sys d' s' hD hS
  have hidx : initCurrentTrack ls = roundF64 (digitsToNat ds) := by
    unfold initCurrentTrack
    rw [hti]
    show (if (parseInt (String.mk ds)).truthy then parseInt (String.mk ds) else .fin 0) = _
    rw [parseInt_digits ds hds hdd]
    exact roundF64_or_zero _
  have hvol : ∀ x, roundF64 ((digitsToNat (ip ++ fp) : ℚ) / 10 ^ fp.length) = .fin x →
      x ≠ 0 → initVolume ls = .fin x := by
    intro x hx hx0
    unfold initVolume
    rw [hvo]
    show (if (parseFloat (String.mk (ip ++ '.' :: fp))).truthy
      then parseFloat (String.mk (ip ++ '.' :: fp)) else .fin (7 / 10)) = _
    rw [parseFloat_digits_point ip fp hip hid hfd, hx]
    simp [JSNum.truthy, hx0]
  refine ⟨hidx, ?_, hvol, ?_, ?_⟩
  · intro hn
    rw [hidx, roundF64_natCast _ hn]
  · intro hn
    apply startup_bad_index ls sys _ hst
    intro x hx
    have hx' : roundF64 (digitsToNat ds) = .fin x := by rw [← hidx]; exact hx
    rw [roundF64_fin_inv _ x hx']
    exact three_le_roundBinary64 _ (by exact_mod_cast hn)
  · intro hn
    have hfin : initCurrentTrack ls = .fin (((digitsToNat ds : Nat) : Int) : ℚ) := by
      rw [hidx, roundF64_natCast _ (lt_trans hn (by norm_num))]
      norm_num
    have hstart := startup_of_index ls sys _ (digitsToNat ds : Nat) hst hfin (by omega)
      (by omega)
    refine ⟨_, hstart, rfl, renderTrack_ok _ (by simp) (by simp; omega), ?_⟩
    intro x hx hx0
    have hv := hvol x hx hx0
    have hx1 : 0 ≤ x := by
      rw [roundF64_fin_inv _ x hx]
      exact roundBinary64_nonneg _ (by positivity)
    obtain ⟨hm1, hm2⟩ := mount_of_volume
      { currentTrack := (digitsToNat ds : Nat), volume := initVolume ls, isDark := d',
        repeatMode := initRepeatMode ls, shuffle := s', storage := ls } x
      (renderTrack_ok _ (by simp) (by simp; omega)) htt hv
    refine ⟨hv, ?_, hm2⟩
    intro hle
    exact ⟨_, hm1 ⟨hx1, hle⟩, hv, rfl⟩

theorem stored_numbers_used_unclamped_witness :
    ∃ p, startup inRangeStorage true = .ok p ∧ p.currentTrack = 1 ∧
      p.volume = .fin (1 / 2) ∧ ∃ m, mount p = .ok m ∧ m.player.volume = .fin (1 / 2) := by
  have hq : ((digitsToNat (['0'] ++ ['5']) : ℚ) / 10 ^ ['5'].length) = 1 / 2 := by
    have : digitsToNat (['0'] ++ ['5']) = 5 := by decide
    rw [this]; norm_num
  obtain ⟨_, _, _, _, h5⟩ :=
    stored_numbers_used_unclamped inRangeStorage true ['1'] ['0'] ['5'] .null .null
      (by simp) (by decide) (by simp) (by decide) (by decide) rfl rfl rfl rfl rfl
  obtain ⟨p, hp, hi, _, hx⟩ := h5 (by decide)
  obtain ⟨hv, hm, _⟩ := hx (1 / 2) (by rw [hq]; exact roundF64_one_half) (by norm_num)
  obtain ⟨m, hm1, hm2, _⟩ := hm (by norm_num)
  refine ⟨p, hp, ?_, hv, m, hm1, hm2⟩
  rw [hi]; decide

/-! ## The spectrum effect: the claim -/

theorem sameAsBool_self (b : Bool) : sameAsBool (.bool b) b = true := by
  cases b <;> rfl

theorem sameAsBool_ne (b c : Bool) (h : c ≠ b) : sameAsBool (.bool b) c = false := by
  cases b <;> cases c <;> first | rfl | exact absurd rfl h

theorem initShuffle_written (ls : Storage) (sh : Bool)
    (h : getItem ls "shuffle" = some (jsonStringify (.bool sh))) :
    initShuffle ls = .ok (.bool sh) := by
  unfold initShuffle; rw [h]; cases sh <;> rfl

/-- Setting the theme to the value it has changes nothing. -/
theorem setIsDark_same (src : Bool) (m : Mounted) (b sh : Bool) (h : m.healthy b sh) :
    setIsDark src b m = m := by
  obtain ⟨h1, h2, _, _, _⟩ := h
  unfold setIsDark
  rw [h1, h2, sameAsBool_self]
  rfl

/-- A theme change that alters the flag runs the spectrum effect's body again. -/
theorem setIsDark_flip (src : Bool) (m : Mounted) (b sh c : Bool) (h : m.healthy b sh)
    (hc : c ≠ b) :
    setIsDark src c m =
      { player := persistPrefs { m.player with isDark := .bool c }
        darkClass := c
        contexts := m.contexts + 1
        tornDown := !src } := by
  obtain ⟨h1, h2, _, h4, t, h5⟩ := h
  unfold setIsDark
  rw [h1, h2, sameAsBool_ne b c hc, initShuffle_written _ sh h4, h5]
  rfl

theorem healthy_flip (m : Mounted) (b sh c : Bool) (h : m.healthy b sh) (hc : c ≠ b) :
    (setIsDark true c m).healthy c sh := by
  rw [setIsDark_flip true m b sh c h hc]
  obtain ⟨_, _, h3, _, t, h5⟩ := h
  refine ⟨rfl, rfl, h3, ?_, t, h5⟩
  show getItem (persistPrefs { m.player with isDark := .bool c }).storage "shuffle" = _
  rw [persistPrefs_shuffle]
  show some (jsonStringify m.player.shuffle) = _
  rw [h3]

theorem runTheme_tornDown (src : Bool) (bs : List Bool) (m : Mounted)
    (h : m.tornDown = true) : runTheme src bs m = m := by
  induction bs with
  | nil => rfl
  | cons b bs ih =>
    show runTheme src bs (setIsDark src b m) = m
    have : setIsDark src b m = m := by unfold setIsDark; rw [h]; rfl
    rw [this, ih]

theorem runTheme_contexts_granted (bs : List Bool) (m : Mounted) (b sh : Bool)
    (h : m.healthy b sh) :
    (runTheme true bs m).contexts = m.contexts + themeFlips b bs := by
  induction bs generalizing m b with
  | nil => rfl
  | cons c bs ih =>
    show (runTheme true bs (setIsDark true c m)).contexts = _
    by_cases hc : c = b
    · subst hc
      rw [setIsDark_same true m c sh h, ih m c h]
      simp [themeFlips]
    · rw [ih _ c (healthy_flip m b sh c h hc), setIsDark_flip true m b sh c h hc]
      simp only [themeFlips, hc, if_false]
      omega

theorem runTheme_contexts_refused (bs : List Bool) (m : Mounted) (b sh : Bool)
    (h : m.healthy b sh) :
    (runTheme false bs m).contexts = m.contexts + min 1 (themeFlips b bs) := by
  induction bs generalizing m b with
  | nil => rfl
  | cons c bs ih =>
    show (runTheme false bs (setIsDark false c m)).contexts = _
    by_cases hc : c = b
    · subst hc
      rw [setIsDark_same false m c sh h, ih m c h]
      simp [themeFlips]
    · rw [setIsDark_flip false m b sh c h hc, runTheme_tornDown false bs _ rfl]
      simp only [themeFlips, hc, if_false]
      omega

theorem mount_healthy (p : Player) (m : Mounted) (b sh : Bool) (hd : p.isDark = .bool b)
    (hs : p.shuffle = .bool sh) (hm : mount p = .ok m) :
    m.healthy b sh ∧ m.contexts = 1 := by
  unfold mount at hm
  cases hr : renderTrack p with
  | error e => rw [hr] at hm; exact absurd hm (by simp)
  | ok t =>
    rw [hr] at hm
    cases hb : bindAudio (persistPrefs p) with
    | error e => rw [hb] at hm; exact absurd hm (by simp)
    | ok a =>
      rw [hb] at hm
      simp only [Except.ok.injEq] at hm
      subst hm
      refine ⟨⟨rfl, hd, hs, ?_, t, hr⟩, rfl⟩
      show getItem (persistVolume (persistPrefs p)).storage "shuffle" = _
      have : getItem (persistVolume (persistPrefs p)).storage "shuffle"
          = getItem (persistPrefs p).storage "shuffle" := by
        simp [persistVolume, getItem, setItem]
      rw [this, persistPrefs_shuffle, hs]

theorem mount_lastTrackPlayer : mount lastTrackPlayer = .ok mountedLastTrack :=
  (mount_of_volume lastTrackPlayer (7 / 10) ⟨_, rfl⟩ rfl rfl).1 (by norm_num)

/-- C9 fails as stated: one change of the theme after mount runs the spectrum effect
again, so a second audio context has been constructed, whether or not the browser then
grants the second media-element source. -/
theorem theme_change_rebuilds_graph :
    mount lastTrackPlayer = .ok mountedLastTrack ∧
    mountedLastTrack.contexts = 1 ∧
    (runTheme true [true] mountedLastTrack).contexts = 2 ∧
    (runTheme false [true] mountedLastTrack).contexts = 2 ∧
    (runTheme true [true] mountedLastTrack).contexts ≠ 1 := by
  have h := (mount_healthy lastTrackPlayer mountedLastTrack false false rfl rfl
    mount_lastTrackPlayer).1
  have h1 : (runTheme true [true] mountedLastTrack).contexts = 2 := by
    rw [runTheme_contexts_granted [true] mountedLastTrack false false h]; rfl
  have h2 : (runTheme false [true] mountedLastTrack).contexts = 2 := by
    rw [runTheme_contexts_refused [true] mountedLastTrack false false h]; rfl
  exact ⟨mount_lastTrackPlayer, rfl, h1, h2, by rw [h1]; decide⟩

/-- C9 as amended. The spectrum effect lists `isDark` as its dependency. For a component
that has mounted (the first render and the effects before the spectrum effect did not
throw) with boolean theme and shuffle flags: one audio context has been constructed at
mount; setting the theme to the value it has constructs nothing and leaves the component
as it is; a theme change that alters the flag runs the effect's body again, which
constructs a second audio context. After a sequence of theme changes the number of
contexts constructed is 1 plus the number of changes that altered the flag where the
browser grants a second media-element source for the audio element, and 1 plus at most
one where it refuses (the effect then throws and the component is removed). -/
theorem graph_built_per_theme_change (p : Player) (m : Mounted) (b sh : Bool)
    (bs : List Bool) (hd : p.isDark = .bool b) (hs : p.shuffle = .bool sh)
    (hm : mount p = .ok m) :
    m.contexts = 1 ∧ m.tornDown = false ∧
    (∀ src, setIsDark src b m = m) ∧
    (∀ src, (setIsDark src (!b) m).contexts = 2) ∧
    (runTheme true bs m).contexts = 1 + themeFlips b bs ∧
    (runTheme false bs m).contexts = 1 + min 1 (themeFlips b bs) := by
  obtain ⟨hh, hc⟩ := mount_healthy p m b sh hd hs hm
  refine ⟨hc, hh.1, fun src => setIsDark_same src m b sh hh, ?_, ?_, ?_⟩
  · intro src
    rw [setIsDark_flip src m b sh (!b) hh (by cases b <;> decide)]
    show m.contexts + 1 = 2
    rw [hc]
  · rw [runTheme_contexts_granted bs m b sh hh, hc]
  · rw [runTheme_contexts_refused bs m b sh hh, hc]

theorem graph_built_per_theme_change_witness :
    setIsDark true false mountedLastTrack = mountedLastTrack ∧
    (setIsDark true true mountedLastTrack).contexts = 2 ∧
    (runTheme true [true, true, false] mountedLastTrack).contexts = 3 ∧
    (runTheme false [true, true, false] mountedLastTrack).contexts = 2 := by
  obtain ⟨_, _, h3, h4, h5, h6⟩ :=
    graph_built_per_theme_change lastTrackPlayer mountedLastTrack false false
      [true, true, false] rfl rfl mount_lastTrackPlayer
  exact ⟨h3 true, h4 true, h5, h6⟩

/-- When the render throws, or the audio-binding effect does, nothing is mounted and no
audio context has been constructed. -/
theorem mount_error (p : Player) (e : JSError) :
    (renderTrack p = .error e → mount p = .error e) ∧
    (∀ t, renderTrack p = .ok t → bindAudio (persistPrefs p) = .error e →
      mount p = .error e) := by
  constructor
  · intro h; simp only [mount, h]
  · intro t ht hb; simp only [mount, ht, hb]

end MusicPlayer
